import Mathlib

/-!
A verification development for the Complots game engine (`game.py`).

The Python classes `Role`, `Card`, `Player`, `Action`, `RoleClaim`,
`ActionResolution` and `Game` are embedded as Lean structures, and every
method of `Game` that the verified properties touch is embedded as an
executable function.  Mutation of `self` becomes explicit state passing:
each method takes a `Game` and returns an updated `Game`.  Paths on which
the Python code raises an exception (out-of-range list index, `list.pop`
on an empty list, `list.remove` of a missing element, `ValueError` in the
constructor) return `none`.  The unbounded loops (the Spy redo loop, the
dead-seat skipping loop, and the mutual recursion between card
elimination and the death handler) take an explicit fuel argument;
exhausted fuel also returns `none`, so every `some` result is a state the
Python program actually produces.

All decisions that Python obtains from the player interfaces
(`CLIPlayer` / `AIPlayer`) are modelled by an `Oracle` of pure functions;
`random.shuffle` is also an oracle field, constrained (where a theorem
needs it) to be a permutation.
-/

namespace Complots

/-- The closed set of roles, in the declaration order of `Role` in `game.py`. -/
inductive Role where
  | illusionist
  | spy
  | undertaker
  | pope
  | blackmailer
deriving DecidableEq, Repr

/-- `Card`: a role together with a `revealed` flag (initially false). -/
structure Card where
  role : Role
  revealed : Bool
deriving DecidableEq, Repr

/-- `Player`: coin balance and hand.  Coins are modelled as `Int` so that
"never negative" is a real statement, not a typing artifact. -/
structure Player where
  coins : Int
  cards : List Card
deriving DecidableEq, Repr

/-- `Player.is_alive`: at least one unrevealed card. -/
def Player.is_alive (p : Player) : Bool :=
  p.cards.any (fun c => !c.revealed)

/-- The closed set of actions of `game.py`. -/
inductive Action where
  | income
  | foreign_aid
  | coup
  | illusionist
  | spy
  | pope
  | blackmailer
deriving DecidableEq, Repr

/-- `RoleClaim` dataclass. -/
structure RoleClaim where
  player_id : Nat
  role : Role
  is_counter : Bool
  target_id : Option Nat := none
  challenged_by : Option Nat := none
  was_successful : Bool := false
deriving DecidableEq, Repr

/-- `ActionResolution` dataclass. -/
structure ActionResolution where
  action : Action
  actor_id : Nat
  target_id : Option Nat
  role_claims : List RoleClaim := []
  successful : Bool := false
deriving DecidableEq, Repr

/-- The mutable state of class `Game` (the fields of `self`).
`player_interfaces` is replaced by the `Oracle` below. -/
structure Game where
  players : List Player
  deck : List Card
  current_player_idx : Nat
  known_dead_cards : List Role
  turn_count : Nat
  last_action : Option Action
  last_actor_id : Int
  last_target_id : Option Nat
deriving DecidableEq, Repr

/-- The decisions Python obtains from `self.player_interfaces[i]` plus
`random.shuffle`.  Each function receives the player id, the arguments
Python passes, and the current `Game` (Python passes the
`get_game_state()` projection of it). -/
structure Oracle where
  wants_to_challenge : Nat → RoleClaim → Game → Bool
  wants_to_counter : Nat → ActionResolution → List Role → Game → Option Role
  choose_card_to_lose : Nat → List Card → Int
  choose_card_to_discard : Nat → List Card → Int
  wants_to_redo_spy : Nat → Game → Bool
  chooses_pay_blackmail : Nat → Game → Bool
  wants_to_claim_undertaker_coins : Nat → Int → Game → Bool
  shuffle : List Card → List Card

/-- An oracle whose `shuffle` behaves like `random.shuffle`: it returns a
permutation of its input. -/
def Oracle.shuffleOK (o : Oracle) : Prop :=
  ∀ l : List Card, (o.shuffle l).Perm l

/-- A concrete deterministic oracle (identity shuffle, never challenges
or counters, discards index 0, reveals the first unrevealed card, pays
blackmail, never redoes Spy, never claims Undertaker coins), used to
instantiate theorems at concrete games. -/
def idOracle : Oracle := {
  wants_to_challenge := fun _ _ _ => false,
  wants_to_counter := fun _ _ _ _ => none,
  choose_card_to_lose := fun _ cards => ((cards.findIdx fun c => !c.revealed : Nat) : Int),
  choose_card_to_discard := fun _ _ => 0,
  wants_to_redo_spy := fun _ _ => false,
  chooses_pay_blackmail := fun _ _ => true,
  wants_to_claim_undertaker_coins := fun _ _ _ => false,
  shuffle := id }

/-! ### Python list primitives -/

/-- Python list indexing: nonnegative indices from the front, negative
indices from the back, anything else raises `IndexError` (`none`). -/
def pyIdx (n : Nat) (i : Int) : Option Nat :=
  if 0 ≤ i then
    if i < (n : Int) then some i.toNat else none
  else
    if 0 ≤ (n : Int) + i then some ((n : Int) + i).toNat else none

/-- `l[i]` with Python indexing. -/
def pyGet (l : List α) (i : Int) : Option α :=
  (pyIdx l.length i).bind (fun j => l.get? j)

/-- `l.pop(i)` with Python indexing: the removed element and the rest. -/
def pyPopAt (l : List α) (i : Int) : Option (α × List α) :=
  (pyIdx l.length i).bind (fun j => (l.get? j).map (fun a => (a, l.eraseIdx j)))

/-- `l.pop()`: remove and return the last element; empty list raises. -/
def popLast (l : List α) : Option (α × List α) :=
  match l.getLast? with
  | none => none
  | some a => some (a, l.dropLast)

/-- `set.add` on the `known_dead_cards` set, modelled as a duplicate-free
list. -/
def insertRole (l : List Role) (r : Role) : List Role :=
  if r ∈ l then l else l ++ [r]

/-! ### Small `Game` accessors -/

/-- `self.players[i]`; `none` is Python's `IndexError`. -/
def Game.getPlayer (g : Game) (i : Nat) : Option Player :=
  g.players.get? i

/-- Write back `self.players[i]`. -/
def Game.setPlayer (g : Game) (i : Nat) (p : Player) : Game :=
  { g with players := g.players.set i p }

/-- `self.players[i].coins += k` (Python `-=` is `addCoins` of a negative). -/
def Game.addCoins (g : Game) (i : Nat) (k : Int) : Option Game := do
  let p ← g.getPlayer i
  pure (g.setPlayer i { p with coins := p.coins + k })

/-- `self.players[i].is_alive()` for an index produced by `enumerate`. -/
def Game.aliveIdx (g : Game) (i : Nat) : Bool :=
  ((g.players.get? i).map Player.is_alive).getD false

/-! ### Stateless helpers of `Game` -/

/-- The `self.counters` table built in `Game.__init__` (never mutated). -/
def counters (a : Action) : List Role :=
  match a with
  | .foreign_aid => [.illusionist]
  | .blackmailer => [.undertaker]
  | .pope => [.pope]
  | .illusionist => [.illusionist]
  | _ => []

/-- `Game._requires_role`. -/
def requires_role (a : Action) : Bool :=
  match a with
  | .illusionist | .spy | .pope | .blackmailer => true
  | _ => false

/-- `Game._can_be_countered`: membership in the `counters` dict. -/
def can_be_countered (a : Action) : Bool :=
  match a with
  | .foreign_aid | .blackmailer | .pope | .illusionist => true
  | _ => false

/-- `Game.get_valid_actions`. -/
def Game.get_valid_actions (g : Game) : Option (List Action) := do
  let current_player ← g.getPlayer g.current_player_idx
  if current_player.coins ≥ 10 then
    pure [Action.coup]
  else
    let valid_actions := [Action.income, Action.foreign_aid]
    let valid_actions :=
      if current_player.coins ≥ 7 then valid_actions ++ [Action.coup] else valid_actions
    let valid_actions :=
      if current_player.coins ≥ 3 then valid_actions ++ [Action.blackmailer] else valid_actions
    pure (valid_actions ++ [Action.illusionist, Action.spy, Action.pope])

/-- `Game._player_has_role`: an unrevealed card of that role. -/
def Game.player_has_role (g : Game) (player_id : Nat) (role : Role) : Option Bool := do
  let p ← g.getPlayer player_id
  pure (p.cards.any (fun c => c.role == role && !c.revealed))

/-- `Game._replace_card`: find the first hand card whose role matches,
swap it for `deck.pop()`, return it to the deck and reshuffle. -/
def Game.replace_card (o : Oracle) (g : Game) (player_id : Nat) (role : Role) :
    Option Game := do
  let player ← g.getPlayer player_id
  match player.cards.findIdx? (fun c => c.role == role) with
  | none => pure g
  | some i => do
      let card ← player.cards.get? i
      let g :=
        if player.is_alive then g
        else { g with known_dead_cards := insertRole g.known_dead_cards card.role }
      let (newCard, deck') ← popLast g.deck
      let g := g.setPlayer player_id { player with cards := player.cards.set i newCard }
      pure { g with deck := o.shuffle (deck' ++ [card]) }

/-- The claim-gathering loop at the top of `Game._handle_player_death`:
every living seat other than the dead one is asked, in seat order, whether
it claims the Undertaker role for the dead seat's coins. -/
def Game.gather_undertaker_claims (o : Oracle) (g : Game) (dead_player_id : Nat)
    (coins : Int) : List RoleClaim :=
  ((List.range g.players.length).filter (fun i =>
      i != dead_player_id && g.aliveIdx i &&
      o.wants_to_claim_undertaker_coins i coins g)).map
    (fun i => { player_id := i, role := Role.undertaker, is_counter := false })

/-- The payout loop of `Game._handle_player_death`: each claim still in
the live list receives `coins_per` coins. -/
def Game.distribute_coins (store : List RoleClaim) (coins_per : Int) :
    List Nat → Game → Option Game
  | [], g => pure g
  | k :: ks, g => do
      let claim ← store.get? k
      let g ← g.addCoins claim.player_id coins_per
      Game.distribute_coins store coins_per ks g

mutual

/-- `Game._eliminate_card`: if the seat has any unrevealed card, the
agent picks a card index (used unvalidated: an out-of-range index is
Python's `IndexError`, hence `none`), that card is marked revealed, and a
death triggers the inheritance handler. -/
def Game.eliminate_card (o : Oracle) : Nat → Game → Nat → Option Game
  | 0, _, _ => none
  | fuel + 1, g, player_id => do
    let player ← g.getPlayer player_id
    let available_cards := (player.cards.enum.filter (fun ic => !ic.2.revealed)).map Prod.fst
    if available_cards.isEmpty then pure g
    else do
      let card_index := o.choose_card_to_lose player_id player.cards
      let j ← pyIdx player.cards.length card_index
      let revealed_card ← player.cards.get? j
      let player' :=
        { player with cards := player.cards.set j { revealed_card with revealed := true } }
      let g := g.setPlayer player_id player'
      if player'.is_alive then pure g
      else
        let g := { g with known_dead_cards := insertRole g.known_dead_cards revealed_card.role }
        Game.handle_player_death o fuel g player_id

/-- `Game._handle_player_death`: gather Undertaker coin claims, run the
challenge scans, then split the dead seat's coins among the surviving
claims (integer division, remainder discarded); with no surviving claim
the distribution block is skipped entirely. -/
def Game.handle_player_death (o : Oracle) : Nat → Game → Nat → Option Game
  | 0, _, _ => none
  | fuel + 1, g, dead_player_id => do
    let dead_player ← g.getPlayer dead_player_id
    if dead_player.coins ≤ 0 then pure g
    else do
      let store := Game.gather_undertaker_claims o g dead_player_id dead_player.coins
      let (g, store, live) ←
        Game.ut_scan_claims o fuel g store (List.range store.length) (List.range store.length)
      let successful_undertakers := live.length
      if successful_undertakers > 0 then do
        let dead_player ← g.getPlayer dead_player_id
        -- Python `//` on nonnegative operands is floor division, i.e. `Int.ediv`.
        let coins_per := Int.ediv dead_player.coins (successful_undertakers : Int)
        let g ← Game.distribute_coins store coins_per live g
        let dp ← g.getPlayer dead_player_id
        pure (g.setPlayer dead_player_id { dp with coins := 0 })
      else pure g

/-- The outer challenge loop of `Game._handle_player_death`: iterate over
(the slice copy of) the gathered claims; `ks` is the list of claim
indices still to scan, `live` the indices still in the payout list. -/
def Game.ut_scan_claims (o : Oracle) :
    Nat → Game → List RoleClaim → List Nat → List Nat →
    Option (Game × List RoleClaim × List Nat)
  | 0, _, _, _, _ => none
  | fuel + 1, g, store, live, ks =>
    match ks with
    | [] => pure (g, store, live)
    | k :: rest => do
        let (g, store, live) ←
          Game.ut_scan_players o fuel g store live k (List.range g.players.length)
        Game.ut_scan_claims o fuel g store live rest

/-- The inner challenge loop of `Game._handle_player_death` for the claim
at store index `k`.  Unlike `Game._handle_all_challenges` there is no
`break`: the scan keeps asking the remaining seats after a challenge has
already been resolved.  A second successful challenge of the same claim
reaches `undertaker_claims.remove(claim)` with the claim already removed,
which is Python's `ValueError` (`none`). -/
def Game.ut_scan_players (o : Oracle) :
    Nat → Game → List RoleClaim → List Nat → Nat → List Nat →
    Option (Game × List RoleClaim × List Nat)
  | 0, _, _, _, _, _ => none
  | fuel + 1, g, store, live, k, is =>
    match is with
    | [] => pure (g, store, live)
    | i :: rest => do
        let claim ← store.get? k
        if i != claim.player_id && g.aliveIdx i && o.wants_to_challenge i claim g then do
          let claim := { claim with challenged_by := some i }
          let store := store.set k claim
          let has_role ← g.player_has_role claim.player_id Role.undertaker
          if has_role then do
            let g ← Game.eliminate_card o fuel g i
            let g ← Game.replace_card o g claim.player_id Role.undertaker
            Game.ut_scan_players o fuel g store live k rest
          else do
            let g ← Game.eliminate_card o fuel g claim.player_id
            if k ∈ live then
              Game.ut_scan_players o fuel g store (live.erase k) k rest
            else none
        else Game.ut_scan_players o fuel g store live k rest

end

/-! ### Claim/counter/challenge protocol -/

/-- The loop body of `Game._resolve_claims` for one claim: settle its
challenge (if any) and record `was_successful`. -/
def Game.resolve_one_claim (o : Oracle) (fuel : Nat) (g : Game) (claim : RoleClaim) :
    Option (Game × RoleClaim) :=
  match claim.challenged_by with
  | some challenger => do
      let has_role ← g.player_has_role claim.player_id claim.role
      if has_role then do
        -- Challenge failed
        let g ← Game.eliminate_card o fuel g challenger
        let g ← g.replace_card o claim.player_id claim.role
        pure (g, { claim with was_successful := true })
      else do
        -- Challenge succeeded
        let g ← Game.eliminate_card o fuel g claim.player_id
        pure (g, { claim with was_successful := false })
  | none =>
      -- No challenge, claim succeeds
      pure (g, { claim with was_successful := true })

/-- The first loop of `Game._resolve_claims`, claim by claim in order,
threading the game state (earlier eliminations are visible to later
`player_has_role` checks). -/
def Game.resolve_claim_list (o : Oracle) (fuel : Nat) :
    Game → List RoleClaim → Option (Game × List RoleClaim)
  | g, [] => pure (g, [])
  | g, claim :: rest => do
      let (g, claim') ← Game.resolve_one_claim o fuel g claim
      let (g, rest') ← Game.resolve_claim_list o fuel g rest
      pure (g, claim' :: rest')

/-- `Game._resolve_claims`: settle every claim, then compute the overall
outcome.  ForeignAid and Blackmailer are completely blocked by any
successful counter; otherwise the outcome is the initial claim's, or
`true` when there is no initial claim. -/
def Game.resolve_claims (o : Oracle) (fuel : Nat) (g : Game)
    (resolution : ActionResolution) : Option (Game × ActionResolution) := do
  let (g, claims) ← Game.resolve_claim_list o fuel g resolution.role_claims
  let successful :=
    if resolution.action == Action.foreign_aid || resolution.action == Action.blackmailer then
      if claims.any (fun c => c.is_counter && c.was_successful) then false
      else
        match claims.find? (fun c => !c.is_counter) with
        | some initial_claim => initial_claim.was_successful
        | none => true
    else
      match claims.find? (fun c => !c.is_counter) with
      | some initial_claim => initial_claim.was_successful
      | none => true
  pure (g, { resolution with role_claims := claims, successful := successful })

/-- The seat loop of `Game._handle_counters` for non-Blackmailer actions:
each living seat other than the actor is offered the counter; a returned
role is appended as a counter claim (the growing resolution is what the
next seat is shown). -/
def Game.counter_loop (o : Oracle) (g : Game) (possible_counter_roles : List Role) :
    List Nat → ActionResolution → ActionResolution
  | [], resolution => resolution
  | i :: rest, resolution =>
    let resolution :=
      if i != resolution.actor_id && g.aliveIdx i then
        match o.wants_to_counter i resolution possible_counter_roles g with
        | some counter_role =>
            { resolution with role_claims := resolution.role_claims ++
                [{ player_id := i, role := counter_role, is_counter := true }] }
        | none => resolution
      else resolution
    Game.counter_loop o g possible_counter_roles rest resolution

/-- `Game._handle_counters`.  For Blackmailer only the target is asked
(an out-of-range target id is Python's `IndexError` on
`player_interfaces`, hence `none`); for other actions every living
non-actor seat is asked in seat order. -/
def Game.handle_counters (o : Oracle) (g : Game) (resolution : ActionResolution) :
    Option ActionResolution :=
  let possible_counter_roles := counters resolution.action
  if resolution.action == Action.blackmailer then
    match resolution.target_id with
    | some target_id =>
        if target_id < g.players.length then
          match o.wants_to_counter target_id resolution possible_counter_roles g with
          | some counter_role =>
              some { resolution with role_claims := resolution.role_claims ++
                  [{ player_id := target_id, role := counter_role, is_counter := true }] }
          | none => some resolution
        else none
    | none => some resolution
  else
    some (Game.counter_loop o g possible_counter_roles
      (List.range g.players.length) resolution)

/-- The per-claim scan of `Game._handle_all_challenges`: living seats
other than the claimant are asked in seat order; the first yes becomes
the challenger and the scan stops (`break`). -/
def Game.challenge_scan (o : Oracle) (g : Game) (claim : RoleClaim) : RoleClaim :=
  match (List.range g.players.length).find? (fun i =>
      i != claim.player_id && g.aliveIdx i && o.wants_to_challenge i claim g) with
  | some i => { claim with challenged_by := some i }
  | none => claim

/-- `Game._handle_all_challenges`. -/
def Game.handle_all_challenges (o : Oracle) (g : Game)
    (resolution : ActionResolution) : ActionResolution :=
  { resolution with role_claims := resolution.role_claims.map (Game.challenge_scan o g) }

/-! ### Action executor -/

/-- The Illusionist payment loops of `Game._execute_action`: pay 1 coin
to each listed seat, but only while the actor's current balance is
positive. -/
def Game.pay_one_coin_each (actor_id : Nat) : List Nat → Game → Option Game
  | [], g => pure g
  | pid :: rest, g => do
      let current_player ← g.getPlayer actor_id
      let g ←
        if current_player.coins > 0 then do
          let g ← g.addCoins actor_id (-1)
          g.addCoins pid 1
        else pure g
      Game.pay_one_coin_each actor_id rest g

/-- The Pope loop of `Game._execute_action`: from every seat other than
the actor (dead or alive) that did not successfully counter and has a
positive balance, move 1 coin to the actor. -/
def Game.pope_loop (actor_id : Nat) (claims : List RoleClaim) :
    List Nat → Game → Option Game
  | [], g => pure g
  | i :: rest, g => do
      let g ←
        if i != actor_id then
          let was_countered := claims.any (fun c =>
            c.player_id == i && c.was_successful && c.is_counter)
          if !was_countered then do
            let player ← g.getPlayer i
            if player.coins > 0 then do
              let g ← g.addCoins i (-1)
              g.addCoins actor_id 1
            else pure g
          else pure g
        else pure g
      Game.pope_loop actor_id claims rest g

/-- One Spy draw/discard cycle: pop a card off the deck into the hand,
let the agent pick an index to discard (Python indexing), return the
discarded card to the deck and reshuffle. -/
def Game.spy_draw_discard (o : Oracle) (actor_id : Nat) (g : Game) : Option Game := do
  let (new_card, deck) ← popLast g.deck
  let current_player ← g.getPlayer actor_id
  let current_player := { current_player with cards := current_player.cards ++ [new_card] }
  let g := { g.setPlayer actor_id current_player with deck := deck }
  let card_index := o.choose_card_to_discard actor_id current_player.cards
  let (discarded_card, cards) ← pyPopAt current_player.cards card_index
  let g := g.setPlayer actor_id { current_player with cards := cards }
  pure { g with deck := o.shuffle (g.deck ++ [discarded_card]) }

/-- The Spy redo loop: while the actor has a coin and opts in, pay 1 coin
and run another draw/discard cycle.  The actor's balance strictly
decreases, so fuel `coins.toNat + 1` at entry never runs out. -/
def Game.spy_redo_loop (o : Oracle) (actor_id : Nat) : Nat → Game → Option Game
  | 0, _ => none
  | fuel + 1, g => do
      let current_player ← g.getPlayer actor_id
      if current_player.coins ≥ 1 && o.wants_to_redo_spy actor_id g then do
        let g ← g.addCoins actor_id (-1)
        let g ← Game.spy_draw_discard o actor_id g
        Game.spy_redo_loop o actor_id fuel g
      else pure g

/-- `Game._execute_action`, called only on a successful resolution. -/
def Game.execute_action (o : Oracle) (fuel : Nat) (g : Game)
    (resolution : ActionResolution) : Option Game := do
  -- Python fetches `current_player = self.players[resolution.actor_id]` up front.
  let _ ← g.getPlayer resolution.actor_id
  match resolution.action with
  | .income => g.addCoins resolution.actor_id 1
  | .coup => do
      let current_player ← g.getPlayer resolution.actor_id
      match resolution.target_id with
      | none => pure g
      | some target_id =>
          if current_player.coins < 7 then pure g
          else do
            let g ← g.addCoins resolution.actor_id (-7)
            -- Let target choose which card to reveal
            Game.eliminate_card o fuel g target_id
  | .foreign_aid =>
      if !(resolution.role_claims.any (fun c =>
          c.was_successful && c.is_counter && c.role == Role.illusionist)) then
        g.addCoins resolution.actor_id 2
      else pure g
  | .illusionist => do
      let successful_counters := resolution.role_claims.filter
        (fun c => c.is_counter && c.was_successful)
      -- Take 4 coins initially
      let g ← g.addCoins resolution.actor_id 4
      let successful_illusionists := (resolution.role_claims.filter
        (fun c => c.was_successful && c.role == Role.illusionist)).map RoleClaim.player_id
      -- For each successful counter, give them 1 coin from the acting player
      let g ← Game.pay_one_coin_each resolution.actor_id
        (successful_counters.map RoleClaim.player_id) g
      let remaining_illusionists := successful_illusionists.filter (fun pid =>
        pid != resolution.actor_id &&
        !((successful_counters.map RoleClaim.player_id).contains pid))
      if !remaining_illusionists.isEmpty && successful_illusionists.length ≤ 4 then
        Game.pay_one_coin_each resolution.actor_id remaining_illusionists g
      else pure g
  | .blackmailer => do
      let current_player ← g.getPlayer resolution.actor_id
      match resolution.target_id with
      | none => pure g
      | some target_id =>
          if current_player.coins < 3 then pure g
          else if resolution.role_claims.any (fun c =>
              c.was_successful && c.is_counter && c.role == Role.undertaker) then
            -- Action is blocked by successful Undertaker counter
            pure g
          else do
            let target_player ← g.getPlayer target_id
            if target_player.coins < 3 then do
              -- target must lose a card, and receives 3 coins from the actor
              let g ← g.addCoins resolution.actor_id (-3)
              let g ← g.addCoins target_id 3
              Game.eliminate_card o fuel g target_id
            else
              if o.chooses_pay_blackmail target_id g then do
                -- Target pays 3 coins
                let g ← g.addCoins target_id (-3)
                g.addCoins resolution.actor_id 3
              else do
                -- Target loses a card but gets 3 coins
                let g ← g.addCoins resolution.actor_id (-3)
                let g ← g.addCoins target_id 3
                Game.eliminate_card o fuel g target_id
  | .spy => do
      let g ← Game.spy_draw_discard o resolution.actor_id g
      let current_player ← g.getPlayer resolution.actor_id
      Game.spy_redo_loop o resolution.actor_id (current_player.coins.toNat + 1) g
  | .pope =>
      Game.pope_loop resolution.actor_id resolution.role_claims
        (List.range g.players.length) g

/-! ### Turn manager -/

/-- The dead-seat skipping loop of `Game._next_turn` (fuel models the
infinite loop when no seat is alive). -/
def Game.next_turn_loop (g : Game) : Nat → Nat → Option Nat
  | 0, _ => none
  | fuel + 1, idx =>
      if g.aliveIdx idx then some idx
      else Game.next_turn_loop g fuel ((idx + 1) % g.players.length)

/-- `Game._next_turn`: advance the cursor once, then skip dead seats. -/
def Game.next_turn (fuel : Nat) (g : Game) : Option Game := do
  let idx ← Game.next_turn_loop g fuel ((g.current_player_idx + 1) % g.players.length)
  pure { g with current_player_idx := idx }

/-- The tail of `Game.perform_action` after the counter phase:
challenges, resolution, execution, turn advance. -/
def Game.perform_tail (o : Oracle) (fuel : Nat) (g : Game)
    (resolution : ActionResolution) : Option (Game × Bool) := do
  let resolution := Game.handle_all_challenges o g resolution
  let (g, resolution) ← Game.resolve_claims o fuel g resolution
  let g ← if resolution.successful then Game.execute_action o fuel g resolution else pure g
  -- Always advance to next turn, whether action succeeded or not
  let g ← Game.next_turn fuel g
  pure (g, resolution.successful)

/-- The tail of `Game.perform_action` after the initial claim has been
built: counters, then challenges/resolution/execution/turn advance. -/
def Game.perform_rest (o : Oracle) (fuel : Nat) (g : Game)
    (resolution : ActionResolution) : Option (Game × Bool) := do
  let resolution ←
    if can_be_countered resolution.action then Game.handle_counters o g resolution
    else pure resolution
  Game.perform_tail o fuel g resolution

/-- `Game.perform_action`.  Note the two early `return False` paths: an
action outside `get_valid_actions()` returns before anything is written,
and a role action without a claimed role returns after the tracking
fields were written; neither path reaches `_next_turn`. -/
def Game.perform_action (o : Oracle) (fuel : Nat) (g : Game) (action : Action)
    (target_id : Option Nat := none) (claimed_role : Option Role := none) :
    Option (Game × Bool) := do
  let valid ← g.get_valid_actions
  if action ∉ valid then pure (g, false)
  else
    -- Update game state tracking
    let g := { g with last_action := some action,
                      last_actor_id := (g.current_player_idx : Int),
                      last_target_id := target_id,
                      turn_count := g.turn_count + 1 }
    let resolution : ActionResolution :=
      { action := action, actor_id := g.current_player_idx, target_id := target_id }
    if requires_role action then
      match claimed_role with
      | none => pure (g, false)
      | some role =>
          Game.perform_rest o fuel g { resolution with role_claims :=
            [{ player_id := g.current_player_idx, role := role, is_counter := false,
               target_id := target_id }] }
    else Game.perform_rest o fuel g resolution

/-! ### Construction and dealing -/

/-- The deck built by `Game._initialize_deck` before its shuffle: three
cards of each role, in role declaration order. -/
def initial_deck : List Card :=
  [Role.illusionist, Role.spy, Role.undertaker, Role.pope, Role.blackmailer].flatMap
    (fun role => List.replicate 3 { role := role, revealed := false })

/-- `Game.__init__`: player counts outside `3..6` raise `ValueError`;
every player starts with 2 coins and an empty hand; the deck is the
shuffled 15-card deck. -/
def mkGame (o : Oracle) (num_players : Nat) : Option Game :=
  if !(3 ≤ num_players && num_players ≤ 6) then none
  else some {
    players := List.replicate num_players { coins := 2, cards := [] },
    deck := o.shuffle initial_deck,
    current_player_idx := 0,
    known_dead_cards := [],
    turn_count := 0,
    last_action := none,
    last_actor_id := -1,
    last_target_id := none }

/-- The player loop of `Game.deal_cards`: each player in seat order
receives two cards popped off the deck. -/
def deal_loop : List Player → List Card → Option (List Player × List Card)
  | [], deck => some ([], deck)
  | player :: rest, deck => do
      let (c1, deck) ← popLast deck
      let (c2, deck) ← popLast deck
      let (rest', deck) ← deal_loop rest deck
      pure ({ player with cards := [c1, c2] } :: rest', deck)

/-- `Game.deal_cards`. -/
def Game.deal_cards (g : Game) : Option Game := do
  let (players, deck) ← deal_loop g.players g.deck
  pure { g with players := players, deck := deck }

/-! ### Invariant notions -/

/-- Total number of cards across the deck and all hands. -/
def Game.total_cards (g : Game) : Nat :=
  g.deck.length + (g.players.map (fun p => p.cards.length)).sum

/-- Every seat's balance is nonnegative. -/
def Game.coins_nonneg (g : Game) : Prop :=
  ∀ p ∈ g.players, 0 ≤ p.coins

/-- States reachable from `g` by `perform_action` calls.  Each step may
use its own agents, arguments and fuel; the shuffle of each step's
oracle is required to be a permutation, as `random.shuffle` is. -/
inductive Reachable : Game → Game → Prop
  | refl (g : Game) : Reachable g g
  | step {g g' g'' : Game} {o : Oracle} {fuel : Nat} {a : Action}
      {t : Option Nat} {r : Option Role} {b : Bool} :
      Reachable g g' → o.shuffleOK →
      Game.perform_action o fuel g' a t r = some (g'', b) → Reachable g g''

/-! ### Generic helper lemmas -/

theorem popLast_eq_some {α : Type} {l l' : List α} {a : α}
    (h : popLast l = some (a, l')) : l = l' ++ [a] := by
  unfold popLast at h
  cases hg : l.getLast? with
  | none => rw [hg] at h; cases h
  | some b =>
      rw [hg] at h
      have h1 := Option.some.inj h
      obtain ⟨rfl, rfl⟩ : b = a ∧ l.dropLast = l' :=
        ⟨congrArg Prod.fst h1, congrArg Prod.snd h1⟩
      exact (List.dropLast_append_getLast? _ hg).symm

theorem popLast_concat {α : Type} (l : List α) (a : α) :
    popLast (l ++ [a]) = some (a, l) := by
  unfold popLast
  rw [List.getLast?_concat, List.dropLast_concat]

/-- A successful `popLast` shortens the list by one and returns members. -/
theorem popLast_length {α : Type} {l l' : List α} {a : α}
    (h : popLast l = some (a, l')) : l'.length + 1 = l.length := by
  rw [popLast_eq_some h]; simp

theorem popLast_mem {α : Type} {l l' : List α} {a : α}
    (h : popLast l = some (a, l')) : a ∈ l ∧ ∀ x ∈ l', x ∈ l := by
  rw [popLast_eq_some h]
  constructor
  · simp
  · intro x hx; exact List.mem_append_left _ hx

theorem pyPopAt_length {α : Type} {l l' : List α} {a : α} {i : Int}
    (h : pyPopAt l i = some (a, l')) : l'.length + 1 = l.length := by
  unfold pyPopAt at h
  cases hj : pyIdx l.length i with
  | none => rw [hj] at h; cases h
  | some j =>
      rw [hj] at h
      simp only [Option.some_bind] at h
      cases hg : l.get? j with
      | none => rw [hg] at h; cases h
      | some b =>
          rw [hg] at h
          have h1 := Option.some.inj h
          obtain ⟨rfl, rfl⟩ : b = a ∧ l.eraseIdx j = l' :=
            ⟨congrArg Prod.fst h1, congrArg Prod.snd h1⟩
          have hjl : j < l.length := by
            by_contra hc
            rw [List.get?_eq_none.mpr (Nat.le_of_not_lt hc)] at hg
            cases hg
          exact List.length_eraseIdx_add_one hjl

theorem set_get?_self {α : Type} : ∀ (l : List α) (j : Nat) (a : α),
    l.get? j = some a → l.set j a = l := by
  intro l
  induction l with
  | nil => intro j a h; cases h
  | cons x xs ih =>
      intro j a h
      cases j with
      | zero => cases h; rfl
      | succ j => simp only [List.set]; rw [ih j a h]

/-- Sum of hand sizes across a player list. -/
def handSum (ps : List Player) : Nat :=
  (ps.map (fun p => p.cards.length)).sum

theorem handSum_set : ∀ (ps : List Player) (i : Nat) (p q : Player),
    ps.get? i = some p →
    handSum (ps.set i q) + p.cards.length = handSum ps + q.cards.length := by
  intro ps
  induction ps with
  | nil => intro i p q h; cases h
  | cons x xs ih =>
      intro i p q h
      cases i with
      | zero => cases h; simp [handSum]; omega
      | succ i =>
          simp only [List.set, handSum, List.map_cons, List.sum_cons]
          have := ih i p q h
          simp only [handSum] at this
          omega

theorem coinsSet_mem {α : Type} {ps : List α} {i : Nat} {q x : α}
    (hx : x ∈ ps.set i q) : x ∈ ps ∨ x = q :=
  List.mem_or_eq_of_mem_set hx

/-! ### C10: construction and dealing -/

/-- All 15 cards of the pre-shuffle deck are face down. -/
theorem initial_deck_unrevealed : ∀ c ∈ initial_deck, c.revealed = false := by decide

theorem initial_deck_length : initial_deck.length = 15 := by decide

/-- Specification of the dealing loop: with at least `2·|ps|` cards in
the deck it succeeds, consumes exactly two cards per player, and gives
every player a two-card hand drawn from the deck. -/
theorem deal_loop_spec : ∀ (ps : List Player) (deck : List Card),
    2 * ps.length ≤ deck.length →
    ∃ ps' deck', deal_loop ps deck = some (ps', deck') ∧
      ps'.length = ps.length ∧
      deck'.length + 2 * ps.length = deck.length ∧
      (∀ c ∈ deck', c ∈ deck) ∧
      (∀ p' ∈ ps', p'.cards.length = 2 ∧ ∀ c ∈ p'.cards, c ∈ deck) := by
  intro ps
  induction ps with
  | nil =>
      intro deck _
      exact ⟨[], deck, rfl, rfl, by simp, fun c hc => hc, by simp⟩
  | cons p rest ih =>
      intro deck hlen
      have hne : deck ≠ [] := by
        intro hd; rw [hd] at hlen; simp at hlen
      obtain ⟨c1, d1, hpop1⟩ : ∃ c1 d1, popLast deck = some (c1, d1) := by
        unfold popLast
        cases hg : deck.getLast? with
        | none => exact absurd (List.getLast?_eq_none_iff.mp hg) hne
        | some a => exact ⟨a, deck.dropLast, rfl⟩
      have hd1len : d1.length + 1 = deck.length := popLast_length hpop1
      have hd1ne : d1 ≠ [] := by
        intro hd; rw [hd] at hd1len; simp at hd1len
        simp only [List.length_cons] at hlen
        omega
      obtain ⟨c2, d2, hpop2⟩ : ∃ c2 d2, popLast d1 = some (c2, d2) := by
        unfold popLast
        cases hg : d1.getLast? with
        | none => exact absurd (List.getLast?_eq_none_iff.mp hg) hd1ne
        | some a => exact ⟨a, d1.dropLast, rfl⟩
      have hd2len : d2.length + 1 = d1.length := popLast_length hpop2
      have hrest : 2 * rest.length ≤ d2.length := by
        simp only [List.length_cons] at hlen; omega
      obtain ⟨ps', deck', hloop, hplen, hdlen, hdsub, hhands⟩ := ih d2 hrest
      have hmem1 := popLast_mem hpop1
      have hmem2 := popLast_mem hpop2
      refine ⟨{ p with cards := [c1, c2] } :: ps', deck', ?_, ?_, ?_, ?_, ?_⟩
      · simp [deal_loop, hpop1, hpop2, hloop]
      · simp [hplen]
      · simp only [List.length_cons]; omega
      · intro c hc
        exact hmem1.2 _ (hmem2.2 _ (hdsub c hc))
      · intro p' hp'
        cases hp' with
        | head =>
            refine ⟨rfl, ?_⟩
            intro c hc
            simp only [List.mem_cons, List.not_mem_nil, or_false] at hc
            rcases hc with rfl | rfl
            · exact hmem1.1
            · exact hmem1.2 _ hmem2.1
        | tail _ hp' =>
            obtain ⟨h2, hsub⟩ := hhands p' hp'
            exact ⟨h2, fun c hc => hmem1.2 _ (hmem2.2 _ (hsub c hc))⟩

/-- C10: at game start every player is created with exactly 2 coins, and
`deal_cards` deals each player exactly 2 face-down cards from the 15-card
shuffled deck, leaving `15 - 2N` cards for `N` players; the constructor
rejects any player count outside `3..6`. -/
theorem mkGame_deal_spec (o : Oracle) (n : Nat) (hsh : o.shuffleOK) :
    (¬(3 ≤ n ∧ n ≤ 6) → mkGame o n = none) ∧
    ((3 ≤ n ∧ n ≤ 6) → ∃ g g',
      mkGame o n = some g ∧
      g.players.length = n ∧
      (∀ p ∈ g.players, p.coins = 2) ∧
      g.deck.length = 15 ∧
      g.deal_cards = some g' ∧
      g'.players.length = n ∧
      (∀ p ∈ g'.players, p.cards.length = 2 ∧ ∀ c ∈ p.cards, c.revealed = false) ∧
      g'.deck.length = 15 - 2 * n) := by
  constructor
  · intro hn
    unfold mkGame
    have : (3 ≤ n && n ≤ 6) = false := by
      rcases Nat.lt_or_ge n 3 with h | h
      · simp [Nat.not_le.mpr h]
      · rcases Nat.lt_or_ge 6 n with h6 | h6
        · simp [Nat.not_le.mpr h6]
        · exact absurd ⟨h, h6⟩ hn
    rw [this]
    rfl
  · intro hn
    have hcond : (3 ≤ n && n ≤ 6) = true := by
      simp [hn.1, hn.2]
    have hdecklen : (o.shuffle initial_deck).length = 15 := by
      rw [(hsh initial_deck).length_eq, initial_deck_length]
    have hdeckrev : ∀ c ∈ o.shuffle initial_deck, c.revealed = false := by
      intro c hc
      exact initial_deck_unrevealed c ((hsh initial_deck).mem_iff.mp hc)
    have hn2 : 2 * (List.replicate n (Player.mk 2 [])).length ≤
        (o.shuffle initial_deck).length := by
      rw [hdecklen, List.length_replicate]; omega
    obtain ⟨ps', deck', hloop, hplen, hdlen, _, hhands⟩ :=
      deal_loop_spec (List.replicate n (Player.mk 2 [])) (o.shuffle initial_deck) hn2
    refine ⟨⟨List.replicate n { coins := 2, cards := [] }, o.shuffle initial_deck,
              0, [], 0, none, -1, none⟩,
            ⟨ps', deck', 0, [], 0, none, -1, none⟩, ?_, ?_, ?_, ?_, ?_, ?_, ?_, ?_⟩
    · unfold mkGame; rw [hcond]; rfl
    · simp
    · intro p hp
      rw [List.eq_of_mem_replicate hp]
    · exact hdecklen
    · show Game.deal_cards _ = some _
      unfold Game.deal_cards
      simp [hloop]
    · simp [hplen]
    · intro p hp
      obtain ⟨h2, hsub⟩ := hhands p hp
      exact ⟨h2, fun c hc => hdeckrev c (hsub c hc)⟩
    · simp only [List.length_replicate] at hdlen ⊢
      rw [hdecklen] at hdlen
      omega

/-- Witness for C10 at `n = 4` with the identity-shuffle oracle. -/
theorem mkGame_deal_spec_witness :
    (3 ≤ 4 ∧ 4 ≤ 6) ∧
    ∃ g g', mkGame idOracle 4 = some g ∧
      g.players.length = 4 ∧
      (∀ p ∈ g.players, p.coins = 2) ∧
      g.deck.length = 15 ∧
      g.deal_cards = some g' ∧
      g'.players.length = 4 ∧
      (∀ p ∈ g'.players, p.cards.length = 2 ∧ ∀ c ∈ p.cards, c.revealed = false) ∧
      g'.deck.length = 15 - 2 * 4 := by
  constructor
  · exact ⟨by decide, by decide⟩
  · exact (mkGame_deal_spec idOracle 4 (fun l => List.Perm.refl l)).2 ⟨by decide, by decide⟩

/-! ### C1: overall outcome of fully-blockable actions -/

/-- C1: for every ForeignAid or Blackmailer `ActionResolution`, the
overall outcome computed by `_resolve_claims` is `false` whenever any
counter claim is Upheld (`was_successful`), regardless of the initial
claim's outcome; with no Upheld counter the outcome equals the initial
claim's status, or `true` when the action carried no initial claim. -/
theorem resolve_claims_blockable_outcome (o : Oracle) (fuel : Nat) (g g' : Game)
    (res res' : ActionResolution)
    (hact : res.action = Action.foreign_aid ∨ res.action = Action.blackmailer)
    (h : Game.resolve_claims o fuel g res = some (g', res')) :
    ((∃ c ∈ res'.role_claims, c.is_counter = true ∧ c.was_successful = true) →
        res'.successful = false) ∧
    ((∀ c ∈ res'.role_claims, c.is_counter = true → c.was_successful = false) →
      res'.successful =
        (match res'.role_claims.find? (fun c => !c.is_counter) with
         | some initial_claim => initial_claim.was_successful
         | none => true)) := by
  unfold Game.resolve_claims at h
  cases hl : Game.resolve_claim_list o fuel g res.role_claims with
  | none => rw [hl] at h; cases h
  | some pr =>
      obtain ⟨g0, claims⟩ := pr
      rw [hl] at h
      simp only [Option.some_bind] at h
      cases Option.some.inj h
      have hcond : (res.action == Action.foreign_aid || res.action == Action.blackmailer) = true := by
        rcases hact with hA | hA <;> simp [hA]
      constructor
      · rintro ⟨c, hc, hic, hws⟩
        have hany : claims.any (fun c => c.is_counter && c.was_successful) = true :=
          List.any_eq_true.mpr ⟨c, hc, by simp [hic, hws]⟩
        simp [hcond, hany]
      · intro hall
        have hany : claims.any (fun c => c.is_counter && c.was_successful) = false := by
          rw [List.any_eq_false]
          intro c hc
          cases hic : c.is_counter with
          | false => simp [hic]
          | true => simp [hic, hall c hc hic]
        simp [hcond, hany]

/-- A small game used to instantiate C1's theorem. -/
def c1Game : Game := {
  players := [⟨2, [⟨.spy, false⟩, ⟨.pope, false⟩]⟩,
              ⟨2, [⟨.illusionist, false⟩, ⟨.spy, false⟩]⟩,
              ⟨2, [⟨.undertaker, false⟩, ⟨.blackmailer, false⟩]⟩],
  deck := [⟨.illusionist, false⟩],
  current_player_idx := 0, known_dead_cards := [], turn_count := 0,
  last_action := none, last_actor_id := -1, last_target_id := none }

/-- A ForeignAid resolution carrying one unchallenged Illusionist counter. -/
def c1Res : ActionResolution :=
  { action := Action.foreign_aid, actor_id := 0, target_id := none,
    role_claims := [{ player_id := 1, role := Role.illusionist, is_counter := true }] }

/-- The settled resolution: the counter is Upheld, so the outcome is false. -/
def c1ResOut : ActionResolution :=
  { action := Action.foreign_aid, actor_id := 0, target_id := none,
    role_claims := [{ player_id := 1, role := Role.illusionist, is_counter := true,
                      was_successful := true }],
    successful := false }

/-- Witness for C1: an Upheld Illusionist counter forces the ForeignAid
outcome to be false. -/
theorem resolve_claims_blockable_outcome_witness :
    ∃ pr, Game.resolve_claims idOracle 1 c1Game c1Res = some pr ∧
      pr.2.successful = false := by
  have h : Game.resolve_claims idOracle 1 c1Game c1Res = some (c1Game, c1ResOut) := by
    decide
  refine ⟨(c1Game, c1ResOut), h, ?_⟩
  exact (resolve_claims_blockable_outcome idOracle 1 c1Game c1Game c1Res c1ResOut
    (Or.inl rfl) h).1
    ⟨{ player_id := 1, role := Role.illusionist, is_counter := true, was_successful := true },
      by decide, rfl, rfl⟩

/-! ### C3: the two early-failure paths of `perform_action` -/

/-- A fresh-looking 3-player game (everyone 2 coins, all cards face
down), seat 0 to act. -/
def c3Game : Game := {
  players := [⟨2, [⟨.spy, false⟩, ⟨.pope, false⟩]⟩,
              ⟨2, [⟨.illusionist, false⟩, ⟨.spy, false⟩]⟩,
              ⟨2, [⟨.undertaker, false⟩, ⟨.blackmailer, false⟩]⟩],
  deck := (List.replicate 3 (⟨.illusionist, false⟩ : Card)) ++
          (List.replicate 3 (⟨.undertaker, false⟩ : Card)) ++
          (List.replicate 3 (⟨.blackmailer, false⟩ : Card)),
  current_player_idx := 0, known_dead_cards := [], turn_count := 0,
  last_action := none, last_actor_id := -1, last_target_id := none }

/-- C3 counterexample: Coup is not in `get_valid_actions()` for a seat
with 2 coins, and `perform_action` then returns failure with the state
completely unchanged — in particular `current_player_idx` stays 0 even
though seat 1 is alive, so the turn does NOT advance, contrary to the
claim that a failed call still advances the turn exactly once. -/
theorem perform_action_invalid_counterexample :
    Game.perform_action idOracle 5 c3Game Action.coup (some 1) none =
      some (c3Game, false) ∧
    c3Game.current_player_idx = 0 ∧ c3Game.aliveIdx 1 = true := by decide

/-- C3 amended: both early-failure paths return failure without calling
`_next_turn` (the seat cursor is unchanged).  An action outside
`get_valid_actions()` changes nothing at all; a role action without a
claimed role changes exactly the four tracking fields (`last_action`,
`last_actor_id`, `last_target_id`, `turn_count`) and nothing else. -/
theorem perform_action_failure_paths (o : Oracle) (fuel : Nat) (g : Game)
    (a : Action) (t : Option Nat) (r : Option Role) (va : List Action)
    (hva : g.get_valid_actions = some va) :
    (a ∉ va → Game.perform_action o fuel g a t r = some (g, false)) ∧
    (a ∈ va → requires_role a = true → r = none →
      Game.perform_action o fuel g a t r =
        some ({ g with last_action := some a,
                       last_actor_id := (g.current_player_idx : Int),
                       last_target_id := t,
                       turn_count := g.turn_count + 1 }, false)) := by
  constructor
  · intro hnot
    unfold Game.perform_action
    rw [hva]
    simp [hnot]
  · intro hmem hrole hr
    subst hr
    unfold Game.perform_action
    rw [hva]
    simp [hmem, hrole]

/-- Witness for C3's amended statement: at `c3Game`, an invalid Coup
leaves the state untouched, and a Spy claim without a role writes only
the tracking fields; neither advances the seat cursor. -/
theorem perform_action_failure_paths_witness :
    (Action.coup ∉ [Action.income, Action.foreign_aid, Action.illusionist,
        Action.spy, Action.pope] ∧
      Game.perform_action idOracle 5 c3Game Action.coup (some 1) none =
        some (c3Game, false)) ∧
    (Action.spy ∈ [Action.income, Action.foreign_aid, Action.illusionist,
        Action.spy, Action.pope] ∧
      Game.perform_action idOracle 5 c3Game Action.spy none none =
        some ({ c3Game with last_action := some Action.spy,
                            last_actor_id := (c3Game.current_player_idx : Int),
                            last_target_id := none,
                            turn_count := c3Game.turn_count + 1 }, false)) := by
  have hva : c3Game.get_valid_actions = some [Action.income, Action.foreign_aid,
      Action.illusionist, Action.spy, Action.pope] := by decide
  constructor
  · exact ⟨by decide,
      (perform_action_failure_paths idOracle 5 c3Game Action.coup (some 1) none _ hva).1
        (by decide)⟩
  · exact ⟨by decide,
      (perform_action_failure_paths idOracle 5 c3Game Action.spy none none _ hva).2
        (by decide) (by decide) rfl⟩

/-! ### C6: which card `_replace_card` swaps out -/

/-- Seat 0 holds a revealed Undertaker at index 0 and an unrevealed
Undertaker at index 1. -/
def c6Game : Game := {
  players := [⟨2, [⟨.undertaker, true⟩, ⟨.undertaker, false⟩]⟩,
              ⟨2, [⟨.pope, false⟩, ⟨.spy, false⟩]⟩,
              ⟨2, [⟨.spy, false⟩, ⟨.illusionist, false⟩]⟩],
  deck := [⟨.spy, false⟩],
  current_player_idx := 0, known_dead_cards := [], turn_count := 0,
  last_action := none, last_actor_id := -1, last_target_id := none }

/-- C6: `_player_has_role` confirms seat 0 holds an unrevealed Undertaker
(so `_replace_card` may legitimately be reached for this seat and role),
yet `_replace_card` swaps out the seat's REVEALED Undertaker — the card
returned to the deck is face up and the unrevealed Undertaker stays in
hand — because the loop matches on role only and ignores `revealed`. -/
theorem replace_card_swaps_revealed_card :
    c6Game.player_has_role 0 Role.undertaker = some true ∧
    ((Game.replace_card idOracle c6Game 0 Role.undertaker).map
        (fun g => (g.deck, (g.players.get? 0).map Player.cards))) =
      some ([⟨.undertaker, true⟩],
        some [⟨.spy, false⟩, ⟨.undertaker, false⟩]) := by decide

/-! ### C8: the card-loss index is used unvalidated -/

/-- An agent that always answers card index 0. -/
def c8Oracle : Oracle := { idOracle with choose_card_to_lose := fun _ _ => 0 }

/-- An agent that always answers card index 99. -/
def c8OutOracle : Oracle := { idOracle with choose_card_to_lose := fun _ _ => 99 }

/-- Seat 0 is alive with the revealed card at index 0. -/
def c8Game : Game := {
  players := [⟨2, [⟨.spy, true⟩, ⟨.pope, false⟩]⟩,
              ⟨2, [⟨.illusionist, false⟩, ⟨.spy, false⟩]⟩,
              ⟨2, [⟨.pope, false⟩, ⟨.undertaker, false⟩]⟩],
  deck := [⟨.blackmailer, false⟩],
  current_player_idx := 0, known_dead_cards := [], turn_count := 0,
  last_action := none, last_actor_id := -1, last_target_id := none }

/-- C8 counterexample: during an elimination of the living seat 0 the
agent answers index 0, which designates an ALREADY-REVEALED card; the
core proceeds with that answer anyway (it returns a state, and no card is
actually lost: the state is unchanged). -/
theorem eliminate_card_accepts_revealed_index :
    ((c8Game.players.get? 0).map Player.is_alive) = some true ∧
    c8Oracle.choose_card_to_lose 0 [⟨.spy, true⟩, ⟨.pope, false⟩] = 0 ∧
    (pyGet [(⟨Role.spy, true⟩ : Card), ⟨Role.pope, false⟩] 0).map Card.revealed =
      some true ∧
    Game.eliminate_card c8Oracle 5 c8Game 0 = some c8Game := by decide

theorem enumFrom_filter_unrevealed_isEmpty : ∀ (n : Nat) (l : List Card),
    (((List.enumFrom n l).filter (fun ic => !ic.2.revealed)).map Prod.fst).isEmpty
      = !l.any (fun c => !c.revealed) := by
  intro n l
  induction l generalizing n with
  | nil => rfl
  | cons c cs ih =>
      cases hc : c.revealed <;>
        simp [List.enumFrom, List.filter_cons, hc, ih]

/-- The `available_cards` emptiness test of `_eliminate_card` is exactly
the seat's death test. -/
theorem available_cards_isEmpty (p : Player) :
    ((p.cards.enum.filter (fun ic => !ic.2.revealed)).map Prod.fst).isEmpty
      = !p.is_alive := by
  rw [Player.is_alive, List.enum, enumFrom_filter_unrevealed_isEmpty]

/-- C8 amended: the core only checks that the seat has some unrevealed
card; the agent's answer is then used without validation.  An
out-of-range index raises (`none`: the core produces no state), while an
in-bounds index of an already-revealed card is accepted and the
elimination reveals nothing (the state is returned unchanged). -/
theorem eliminate_card_unvalidated_index (o : Oracle) (fuel : Nat) (g : Game)
    (pid : Nat) (p : Player) (hp : g.getPlayer pid = some p)
    (halive : p.is_alive = true) :
    (pyIdx p.cards.length (o.choose_card_to_lose pid p.cards) = none →
      Game.eliminate_card o (fuel + 1) g pid = none) ∧
    (∀ j c, pyIdx p.cards.length (o.choose_card_to_lose pid p.cards) = some j →
      p.cards.get? j = some c → c.revealed = true →
      Game.eliminate_card o (fuel + 1) g pid = some g) := by
  have hempty : ((p.cards.enum.filter (fun ic => !ic.2.revealed)).map Prod.fst).isEmpty
      = false := by
    rw [available_cards_isEmpty, halive]; rfl
  constructor
  · intro hnone
    rw [Game.eliminate_card, hp]
    simp [hempty, hnone]
  · intro j c hj hc hrev
    have hcard : ({ c with revealed := true } : Card) = c := by
      cases c; simp_all
    have hset : p.cards.set j { c with revealed := true } = p.cards := by
      rw [hcard]; exact set_get?_self _ _ _ hc
    have hplayer : ({ p with cards := p.cards.set j { c with revealed := true } } : Player)
        = p := by
      rw [hset]
    have hsetg : g.setPlayer pid p = g := by
      unfold Game.setPlayer
      rw [set_get?_self _ _ _ hp]
    rw [Game.eliminate_card, hp]
    simp only [Option.bind_eq_bind', Option.some_bind]
    rw [if_neg (by simp [hempty])]
    rw [hj]
    simp only [Option.some_bind]
    rw [hc]
    simp only [Option.some_bind]
    rw [hplayer, hsetg]
    simp [halive]

/-- Witness for C8's amended statement at `c8Game`: index 99 makes the
elimination raise, index 0 (a revealed card) is accepted with no card
lost. -/
theorem eliminate_card_unvalidated_index_witness :
    Game.eliminate_card c8OutOracle 5 c8Game 0 = none ∧
    Game.eliminate_card c8Oracle 5 c8Game 0 = some c8Game := by
  have hp : c8Game.getPlayer 0 = some ⟨2, [⟨.spy, true⟩, ⟨.pope, false⟩]⟩ := by decide
  constructor
  · exact (eliminate_card_unvalidated_index c8OutOracle 4 c8Game 0 _ hp (by decide)).1
      (by decide)
  · exact (eliminate_card_unvalidated_index c8Oracle 4 c8Game 0 _ hp (by decide)).2
      0 ⟨.spy, true⟩ (by decide) (by decide) rfl

/-! ### C7: the Blackmailer low-coin branch -/

/-- Seat 0 (actor) has 3 coins; seat 1 (target) has exactly 2 coins. -/
def c7Game : Game := {
  players := [⟨3, [⟨.blackmailer, false⟩, ⟨.spy, false⟩]⟩,
              ⟨2, [⟨.pope, false⟩, ⟨.spy, false⟩]⟩,
              ⟨2, [⟨.undertaker, false⟩, ⟨.illusionist, false⟩]⟩],
  deck := [⟨.illusionist, false⟩, ⟨.pope, false⟩, ⟨.undertaker, false⟩],
  current_player_idx := 0, known_dead_cards := [], turn_count := 0,
  last_action := none, last_actor_id := -1, last_target_id := none }

/-- C7 counterexample: a successful, uncountered Blackmailer action by
seat 0 (3 coins) against seat 1 (exactly 2 coins).  The target is forced
to reveal a card, but the 3 coins flow FROM the actor TO the target:
coins go from `[3, 2, 2]` to `[0, 5, 2]`, so nothing is transferred to
the actor, contrary to the claim. -/
theorem blackmailer_lowcoin_counterexample :
    c7Game.players.map Player.coins = [3, 2, 2] ∧
    ((Game.perform_action idOracle 20 c7Game Action.blackmailer (some 1)
        (some Role.blackmailer)).map
      (fun gb => (gb.2, gb.1.players.map Player.coins,
        gb.1.players.map (fun p => p.cards.countP (fun c => c.revealed))))) =
      some (true, [0, 5, 2], [0, 1, 0]) := by decide

/-- C7 amended: when a successful, uncountered Blackmailer action
targets a seat with fewer than 3 coins, the actor pays 3 coins to the
target (actor −3, target +3) and the target is then forced to lose a
card: the executor is exactly the two transfers followed by the forced
elimination of the target. -/
theorem execute_blackmail_lowcoin (o : Oracle) (fuel : Nat) (g : Game)
    (res : ActionResolution) (t : Nat) (ap tp : Player)
    (hact : res.action = Action.blackmailer) (ht : res.target_id = some t)
    (hap : g.getPlayer res.actor_id = some ap) (htp : g.getPlayer t = some tp)
    (hc : 3 ≤ ap.coins) (htc : tp.coins < 3)
    (hnoc : res.role_claims.any (fun c =>
      c.was_successful && c.is_counter && c.role == Role.undertaker) = false) :
    Game.execute_action o fuel g res = (do
      let g ← g.addCoins res.actor_id (-3)
      let g ← g.addCoins t 3
      Game.eliminate_card o fuel g t) := by
  obtain ⟨act, aid, tid, claims, succ⟩ := res
  simp only at hact ht hnoc
  subst hact
  subst ht
  unfold Game.execute_action
  simp only [Option.bind_eq_bind', hap, Option.some_bind]
  rw [if_neg (by rw [not_lt]; exact hc)]
  rw [if_neg (by simp [hnoc])]
  simp only [htp, Option.some_bind]
  rw [if_pos htc]

/-- A settled uncountered Blackmailer resolution by seat 0 against seat 1. -/
def c7Res : ActionResolution :=
  { action := Action.blackmailer, actor_id := 0, target_id := some 1,
    role_claims := [{ player_id := 0, role := Role.blackmailer, is_counter := false,
                      target_id := some 1, was_successful := true }],
    successful := true }

/-- Witness for C7's amended statement: executing `c7Res` on `c7Game`
equals transfer-then-eliminate and yields coins `[0, 5, 2]`. -/
theorem execute_blackmail_lowcoin_witness :
    Game.execute_action idOracle 5 c7Game c7Res = (do
      let g ← c7Game.addCoins 0 (-3)
      let g ← g.addCoins 1 3
      Game.eliminate_card idOracle 5 g 1) ∧
    ((Game.execute_action idOracle 5 c7Game c7Res).map
      (fun g => g.players.map Player.coins)) = some [0, 5, 2] := by
  constructor
  · exact execute_blackmail_lowcoin idOracle 5 c7Game c7Res 1
      ⟨3, [⟨.blackmailer, false⟩, ⟨.spy, false⟩]⟩
      ⟨2, [⟨.pope, false⟩, ⟨.spy, false⟩]⟩
      rfl rfl (by decide) (by decide) (by decide) (by decide) (by decide)
  · decide

/-! ### C4: the death-handler challenge scan has no break -/

/-- Seat 0 claims the Undertaker coins (and lacks the role); seats 1 and
2 both answer yes when asked to challenge. -/
def c4Oracle : Oracle := { idOracle with
  wants_to_claim_undertaker_coins := fun i _ _ => i == 0,
  wants_to_challenge := fun i _ _ => i == 1 || i == 2 }

/-- Like `c4Oracle` but only seat 1 challenges. -/
def c4SingleOracle : Oracle := { c4Oracle with
  wants_to_challenge := fun i _ _ => i == 1 }

/-- Seat 3 is dead holding 6 coins; seat 0 is alive without the
Undertaker role; seats 1 and 2 are alive. -/
def c4Game : Game := {
  players := [⟨2, [⟨.spy, false⟩, ⟨.pope, false⟩]⟩,
              ⟨2, [⟨.spy, false⟩, ⟨.illusionist, false⟩]⟩,
              ⟨2, [⟨.pope, false⟩, ⟨.illusionist, false⟩]⟩,
              ⟨6, [⟨.undertaker, true⟩, ⟨.pope, true⟩]⟩],
  deck := [⟨.blackmailer, false⟩, ⟨.spy, false⟩],
  current_player_idx := 0, known_dead_cards := [], turn_count := 0,
  last_action := none, last_actor_id := -1, last_target_id := none }

/-- C4: the inner challenge loop of `_handle_player_death` has no
`break` (unlike `_handle_all_challenges`), so it does not stop at the
first seat that answers yes.  With seat 0's defeated claim challenged by
seat 1 AND seat 2, the claim is resolved twice and the second
`undertaker_claims.remove(claim)` raises `ValueError` (the embedded run
returns `none`); with a single challenger the very same state completes
normally. -/
theorem death_challenge_scan_no_break :
    Game.handle_player_death c4Oracle 20 c4Game 3 = none ∧
    (Game.handle_player_death c4SingleOracle 20 c4Game 3).isSome = true := by decide

/-! ### C5: the death-handler payout -/

theorem get?_lt_length {α : Type} {l : List α} {i : Nat} {a : α}
    (h : l.get? i = some a) : i < l.length := by
  by_contra hc
  rw [List.get?_eq_none.mpr (Nat.le_of_not_lt hc)] at h
  cases h

theorem addCoins_spec {g : Game} {i : Nat} {p : Player} (k : Int)
    (hp : g.players.get? i = some p) :
    g.addCoins i k =
      some { g with players := g.players.set i { p with coins := p.coins + k } } := by
  unfold Game.addCoins Game.getPlayer Game.setPlayer
  rw [hp]
  rfl

/-- Element-wise effect of the payout loop: seat `j` gains `cp` once for
each live claim whose claimant is `j`; hands are untouched. -/
theorem distribute_coins_spec (store : List RoleClaim) (cp : Int) :
    ∀ (ks : List Nat) (g g' : Game),
      Game.distribute_coins store cp ks g = some g' →
      ∀ (j : Nat) (pj : Player), g.players.get? j = some pj →
        ∃ pj', g'.players.get? j = some pj' ∧ pj'.cards = pj.cards ∧
          pj'.coins = pj.coins + cp *
            (((ks.filterMap (fun k => (store.get? k).map RoleClaim.player_id)).count j
              : Nat) : Int) := by
  intro ks
  induction ks with
  | nil =>
      intro g g' h j pj hpj
      cases Option.some.inj h
      exact ⟨pj, hpj, rfl, by simp⟩
  | cons k ks ih =>
      intro g g' h j pj hpj
      simp only [Game.distribute_coins, Option.bind_eq_bind'] at h
      cases hcl : store.get? k with
      | none => rw [hcl] at h; cases h
      | some claim =>
          rw [hcl] at h
          simp only [Option.some_bind] at h
          cases hq : g.players.get? claim.player_id with
          | none =>
              rw [show g.addCoins claim.player_id cp = none by
                unfold Game.addCoins Game.getPlayer; rw [hq]; rfl] at h
              cases h
          | some q =>
              rw [addCoins_spec cp hq] at h
              simp only [Option.some_bind] at h
              by_cases hj : claim.player_id = j
              · subst hj
                have hpq : q = pj := Option.some.inj (hq.symm.trans hpj)
                subst hpq
                have hlt : claim.player_id < g.players.length := get?_lt_length hq
                have h1 : ({ g with players := g.players.set claim.player_id { q with coins := q.coins + cp } } : Game).players.get? claim.player_id = some { q with coins := q.coins + cp } := by
                  simp only
                  rw [List.get?_set_eq_of_lt _ hlt]
                obtain ⟨pj', hpj', hcards, hcoins⟩ := ih _ _ h claim.player_id _ h1
                refine ⟨pj', hpj', hcards, ?_⟩
                rw [hcoins]
                simp only [List.filterMap_cons, hcl, Option.map_some']
                rw [List.count_cons_self]
                push_cast
                ring
              · have h1 : ({ g with players := g.players.set claim.player_id { q with coins := q.coins + cp } } : Game).players.get? j = some pj := by
                  simp only
                  rw [List.get?_set_ne _ _ hj]
                  exact hpj
                obtain ⟨pj', hpj', hcards, hcoins⟩ := ih _ _ h j _ h1
                refine ⟨pj', hpj', hcards, ?_⟩
                rw [hcoins]
                simp only [List.filterMap_cons, hcl, Option.map_some']
                rw [List.count_cons_of_ne (by exact fun hx => hj hx.symm)]

/-- The gathered Undertaker claims, projected to their seat ids, are the
filtered seat range. -/
theorem gather_ids (o : Oracle) (g : Game) (dead : Nat) (c : Int) :
    (Game.gather_undertaker_claims o g dead c).map RoleClaim.player_id =
      (List.range g.players.length).filter (fun i =>
        i != dead && g.aliveIdx i && o.wants_to_claim_undertaker_coins i c g) := by
  unfold Game.gather_undertaker_claims
  rw [List.map_map]
  exact List.map_id _

/-- The death-handler scans only write `challenged_by` fields into the
claim store and only erase entries from the live list: claimant ids are
preserved and the final live list is a sublist of the initial one.  This
holds for every oracle, challenges included. -/
theorem ut_scan_players_shape (o : Oracle) :
    ∀ (fuel : Nat) (g : Game) (store : List RoleClaim) (live : List Nat)
      (k : Nat) (is : List Nat) (r : Game × List RoleClaim × List Nat),
      Game.ut_scan_players o fuel g store live k is = some r →
      r.2.1.map RoleClaim.player_id = store.map RoleClaim.player_id ∧
      List.Sublist r.2.2 live := by
  intro fuel
  induction fuel with
  | zero =>
      intro g store live k is r h
      simp only [Game.ut_scan_players] at h
      cases h
  | succ f ih =>
      intro g store live k is r h
      cases is with
      | nil =>
          simp only [Game.ut_scan_players] at h
          cases Option.some.inj h
          exact ⟨rfl, List.Sublist.refl _⟩
      | cons i rest =>
          simp only [Game.ut_scan_players, Option.bind_eq_bind'] at h
          cases hcl : store.get? k with
          | none => rw [hcl] at h; cases h
          | some claim =>
              rw [hcl] at h
              simp only [Option.some_bind] at h
              have hsetids : (store.set k { claim with challenged_by := some i }).map RoleClaim.player_id = store.map RoleClaim.player_id := by
                rw [List.map_set]
                exact set_get?_self _ _ _ (by rw [List.get?_map, hcl]; rfl)
              by_cases hcond : (i != claim.player_id && g.aliveIdx i &&
                  o.wants_to_challenge i claim g) = true
              · rw [if_pos hcond] at h
                cases hhr : g.player_has_role claim.player_id Role.undertaker with
                | none => rw [hhr] at h; cases h
                | some has_role =>
                    rw [hhr] at h
                    simp only [Option.some_bind] at h
                    cases has_role with
                    | true =>
                        simp only [if_true] at h
                        cases helim : Game.eliminate_card o f g i with
                        | none => rw [helim] at h; cases h
                        | some ga =>
                            rw [helim] at h
                            simp only [Option.some_bind] at h
                            cases hrep : Game.replace_card o ga claim.player_id
                                Role.undertaker with
                            | none => rw [hrep] at h; cases h
                            | some gb =>
                                rw [hrep] at h
                                simp only [Option.some_bind] at h
                                obtain ⟨h1, h2⟩ := ih _ _ _ _ _ _ h
                                exact ⟨h1.trans hsetids, h2⟩
                    | false =>
                        simp only [Bool.false_eq_true, if_false] at h
                        cases helim : Game.eliminate_card o f g claim.player_id with
                        | none => rw [helim] at h; cases h
                        | some ga =>
                            rw [helim] at h
                            simp only [Option.some_bind] at h
                            by_cases hk : k ∈ live
                            · rw [if_pos hk] at h
                              obtain ⟨h1, h2⟩ := ih _ _ _ _ _ _ h
                              exact ⟨h1.trans hsetids,
                                h2.trans (List.erase_sublist _ _)⟩
                            · rw [if_neg hk] at h; cases h
              · rw [if_neg hcond] at h
                exact ih _ _ _ _ _ _ h

/-- Shape of the outer death-handler scan: claimant ids preserved, live
list a sublist of the initial one, for every oracle. -/
theorem ut_scan_claims_shape (o : Oracle) :
    ∀ (fuel : Nat) (g : Game) (store : List RoleClaim) (live : List Nat)
      (ks : List Nat) (r : Game × List RoleClaim × List Nat),
      Game.ut_scan_claims o fuel g store live ks = some r →
      r.2.1.map RoleClaim.player_id = store.map RoleClaim.player_id ∧
      List.Sublist r.2.2 live := by
  intro fuel
  induction fuel with
  | zero =>
      intro g store live ks r h
      simp only [Game.ut_scan_claims] at h
      cases h
  | succ f ih =>
      intro g store live ks r h
      cases ks with
      | nil =>
          simp only [Game.ut_scan_claims] at h
          cases Option.some.inj h
          exact ⟨rfl, List.Sublist.refl _⟩
      | cons k rest =>
          simp only [Game.ut_scan_claims, Option.bind_eq_bind'] at h
          cases hin : Game.ut_scan_players o f g store live k
              (List.range g.players.length) with
          | none => rw [hin] at h; cases h
          | some r1 =>
              rw [hin] at h
              obtain ⟨g1, store1, live1⟩ := r1
              simp only [Option.some_bind] at h
              obtain ⟨hp1, hp2⟩ := ut_scan_players_shape o f g store live k _ _ hin
              obtain ⟨hc1, hc2⟩ := ih _ _ _ _ _ h
              exact ⟨hc1.trans hp1, hc2.trans hp2⟩

/-- Distinct positions of a store with duplicate-free claimant ids hold
claims with different claimant ids. -/
theorem nodup_pid_get?_ne {store : List RoleClaim}
    (h : (store.map RoleClaim.player_id).Nodup) {i j : Nat} {a b : RoleClaim}
    (hi : store.get? i = some a) (hj : store.get? j = some b) (hij : i ≠ j) :
    a.player_id ≠ b.player_id := by
  intro heq
  have hi' : (store.map RoleClaim.player_id).get? i = some a.player_id := by
    rw [List.get?_map, hi]; rfl
  have hj' : (store.map RoleClaim.player_id).get? j = some b.player_id := by
    rw [List.get?_map, hj]; rfl
  exact hij (List.get?_inj (get?_lt_length hi') h (by rw [hi', hj', heq]))

/-- In a duplicate-free live list over a store with duplicate-free
claimant ids, each live claim's claimant occurs exactly once among the
payout recipients. -/
theorem count_live_claim_ids {store : List RoleClaim}
    (hids : (store.map RoleClaim.player_id).Nodup) :
    ∀ {live : List Nat}, live.Nodup → (∀ x ∈ live, x < store.length) →
      ∀ k ∈ live, ∀ claim, store.get? k = some claim →
        (live.filterMap (fun j => (store.get? j).map RoleClaim.player_id)).count
          claim.player_id = 1 := by
  intro live
  induction live with
  | nil =>
      intro _ _ k hk
      cases hk
  | cons k₀ rest ih =>
      intro hnd hbound k hk claim hclaim
      have hk₀lt : k₀ < store.length := hbound k₀ (List.mem_cons_self _ _)
      have hclaim₀ : store.get? k₀ = some (store.get ⟨k₀, hk₀lt⟩) :=
        List.get?_eq_get hk₀lt
      have hk₀nr : k₀ ∉ rest := (List.nodup_cons.mp hnd).1
      have hndr : rest.Nodup := (List.nodup_cons.mp hnd).2
      have hboundr : ∀ x ∈ rest, x < store.length :=
        fun x hx => hbound x (List.mem_cons_of_mem _ hx)
      simp only [List.filterMap_cons, hclaim₀, Option.map_some']
      rcases List.mem_cons.mp hk with rfl | hkr
      · have hceq : claim = store.get ⟨k, hk₀lt⟩ :=
          Option.some.inj (hclaim.symm.trans hclaim₀)
        rw [← hceq, List.count_cons_self]
        have hzero : (rest.filterMap
            (fun j => (store.get? j).map RoleClaim.player_id)).count
            claim.player_id = 0 := by
          rw [List.count_eq_zero]
          intro hmem
          obtain ⟨k', hk', hf⟩ := List.mem_filterMap.mp hmem
          cases hq : store.get? k' with
          | none => rw [hq] at hf; cases hf
          | some c' =>
              rw [hq] at hf
              have hpid : c'.player_id = claim.player_id := Option.some.inj hf
              have hne : k' ≠ k := fun hx => hk₀nr (hx ▸ hk')
              exact nodup_pid_get?_ne hids hq hclaim hne hpid
        rw [hzero]
      · have hne : k ≠ k₀ := fun hx => hk₀nr (hx ▸ hkr)
        have hpidne : claim.player_id ≠ (store.get ⟨k₀, hk₀lt⟩).player_id :=
          nodup_pid_get?_ne hids hclaim hclaim₀ hne
        rw [List.count_cons_of_ne hpidne]
        exact ih hndr hboundr k hkr claim hclaim

/-- C5 amended: when the handler runs for a seat that died holding more
than 0 coins, it first gathers the Undertaker coin claims and runs the
challenge scan (which may eliminate cards and cascade further deaths);
then, writing `k` for the number of claims that survived the scan and
reading balances from the post-scan state: with `k ≥ 1` each surviving
claim's holder gains (dead seat's post-scan coins) `// k` (remainder
discarded) and the dead seat's balance is set to 0; with `k = 0` the
distribution block is skipped entirely and the handler returns the
post-scan state unchanged — the dead seat's balance is NOT zeroed.  No
restriction is placed on the agents: challenges and cascaded deaths are
covered, the gains being stated over the post-scan balances exactly as
the code computes them. -/
theorem handle_player_death_payout (o : Oracle) (fuel : Nat) (g g' : Game)
    (dead : Nat) (dp : Player)
    (hdp : g.players.get? dead = some dp) (hcoins : 0 < dp.coins)
    (h : Game.handle_player_death o fuel g dead = some g') :
    ∃ (f : Nat) (g₁ : Game) (store : List RoleClaim) (live : List Nat),
      fuel = f + 1 ∧
      Game.ut_scan_claims o f g (Game.gather_undertaker_claims o g dead dp.coins)
        (List.range (Game.gather_undertaker_claims o g dead dp.coins).length)
        (List.range (Game.gather_undertaker_claims o g dead dp.coins).length)
        = some (g₁, store, live) ∧
      store.map RoleClaim.player_id =
        (Game.gather_undertaker_claims o g dead dp.coins).map RoleClaim.player_id ∧
      (live = [] → g' = g₁) ∧
      (live ≠ [] → ∀ dp₁, g₁.players.get? dead = some dp₁ →
        (∃ dp', g'.players.get? dead = some dp' ∧ dp'.coins = 0 ∧
          dp'.cards = dp₁.cards) ∧
        ∀ k ∈ live, ∀ claim, store.get? k = some claim →
          ∀ pj, g₁.players.get? claim.player_id = some pj →
            ∃ pj', g'.players.get? claim.player_id = some pj' ∧
              pj'.cards = pj.cards ∧
              pj'.coins = pj.coins + Int.ediv dp₁.coins (live.length : Int)) := by
  cases fuel with
  | zero =>
      simp only [Game.handle_player_death] at h
      cases h
  | succ f =>
      simp only [Game.handle_player_death, Option.bind_eq_bind'] at h
      rw [show g.getPlayer dead = some dp from hdp] at h
      simp only [Option.some_bind] at h
      rw [if_neg (by rw [not_le]; exact hcoins)] at h
      cases hscan : Game.ut_scan_claims o f g
          (Game.gather_undertaker_claims o g dead dp.coins)
          (List.range (Game.gather_undertaker_claims o g dead dp.coins).length)
          (List.range (Game.gather_undertaker_claims o g dead dp.coins).length) with
      | none => rw [hscan] at h; cases h
      | some r =>
          rw [hscan] at h
          obtain ⟨g₁, store, live⟩ := r
          simp only [Option.some_bind] at h
          obtain ⟨hids_eq, hsub⟩ := ut_scan_claims_shape o f g
            (Game.gather_undertaker_claims o g dead dp.coins)
            (List.range (Game.gather_undertaker_claims o g dead dp.coins).length)
            (List.range (Game.gather_undertaker_claims o g dead dp.coins).length)
            _ hscan
          refine ⟨f, g₁, store, live, rfl, hscan, hids_eq, ?_, ?_⟩
          · intro hnil
            rw [hnil] at h
            rw [if_neg (by simp)] at h
            exact (Option.some.inj h).symm
          · intro hne dp₁ hdp₁
            have hpos : live.length > 0 := List.length_pos.mpr hne
            rw [if_pos hpos] at h
            rw [show g₁.getPlayer dead = some dp₁ from hdp₁] at h
            simp only [Option.some_bind] at h
            cases hdist : Game.distribute_coins store
                (Int.ediv dp₁.coins (live.length : Int)) live g₁ with
            | none => rw [hdist] at h; cases h
            | some g₂ =>
                rw [hdist] at h
                simp only [Option.some_bind] at h
                cases hp3 : g₂.getPlayer dead with
                | none => rw [hp3] at h; cases h
                | some dp₃ =>
                    rw [hp3] at h
                    simp only [Option.some_bind] at h
                    have hg' : g' = g₂.setPlayer dead { dp₃ with coins := 0 } :=
                      (Option.some.inj h).symm
                    have hspec := distribute_coins_spec store
                      (Int.ediv dp₁.coins (live.length : Int)) live g₁ g₂ hdist
                    have hids2 : store.map RoleClaim.player_id =
                        (List.range g.players.length).filter (fun i =>
                          i != dead && g.aliveIdx i &&
                          o.wants_to_claim_undertaker_coins i dp.coins g) :=
                      hids_eq.trans (gather_ids o g dead dp.coins)
                    have hnodup : (store.map RoleClaim.player_id).Nodup := by
                      rw [hids2]
                      exact (List.nodup_range _).filter _
                    have hdead_not : dead ∉ store.map RoleClaim.player_id := by
                      rw [hids2]
                      intro hmem
                      have := (List.mem_filter.mp hmem).2
                      simp at this
                    have hlen_eq : store.length =
                        (Game.gather_undertaker_claims o g dead dp.coins).length := by
                      have := congrArg List.length hids_eq
                      simpa using this
                    have hlivend : live.Nodup :=
                      List.Nodup.sublist hsub (List.nodup_range _)
                    have hbound : ∀ x ∈ live, x < store.length := by
                      intro x hx
                      rw [hlen_eq]
                      exact List.mem_range.mp (hsub.subset hx)
                    obtain ⟨pjD, hpjD, hpjDcards, _⟩ := hspec dead dp₁
                      (show g₁.players.get? dead = some dp₁ from hdp₁)
                    have hdp₃ : dp₃ = pjD := Option.some.inj
                      ((show g₂.players.get? dead = some dp₃ from hp3).symm.trans hpjD)
                    subst hdp₃
                    refine ⟨⟨{ dp₃ with coins := 0 }, ?_, rfl, hpjDcards⟩, ?_⟩
                    · rw [hg']
                      unfold Game.setPlayer
                      simp only
                      exact List.get?_set_eq_of_lt _
                        (get?_lt_length (show g₂.players.get? dead = some dp₃ from hp3))
                    · intro k hk claim hclaim pj hpj
                      obtain ⟨pj', hpj', hcards, hcoins'⟩ := hspec claim.player_id pj hpj
                      have hcnt := count_live_claim_ids hnodup hlivend hbound k hk
                        claim hclaim
                      have hpidmem : claim.player_id ∈ store.map RoleClaim.player_id :=
                        List.mem_map_of_mem _ (List.get?_mem hclaim)
                      have hne_dead : claim.player_id ≠ dead :=
                        fun hx => hdead_not (hx ▸ hpidmem)
                      refine ⟨pj', ?_, hcards, ?_⟩
                      · rw [hg']
                        unfold Game.setPlayer
                        simp only
                        rw [List.get?_set_ne _ _ (Ne.symm hne_dead)]
                        exact hpj'
                      · rw [hcoins', hcnt]
                        simp

/-- Seat 1 is dead holding 6 coins; nobody claims Undertaker. -/
def c5Game : Game := {
  players := [⟨2, [⟨.spy, false⟩, ⟨.pope, false⟩]⟩,
              ⟨6, [⟨.undertaker, true⟩, ⟨.pope, true⟩]⟩,
              ⟨2, [⟨.spy, false⟩, ⟨.illusionist, false⟩]⟩],
  deck := [⟨.blackmailer, false⟩],
  current_player_idx := 0, known_dead_cards := [], turn_count := 0,
  last_action := none, last_actor_id := -1, last_target_id := none }

/-- C5 counterexample: the handler runs for dead seat 1 holding 6 > 0
coins, no Undertaker claim is made, and the handler returns the state
unchanged — the dead seat's balance is still 6, not 0. -/
theorem death_handler_zero_claims_counterexample :
    ((c5Game.players.get? 1).map Player.is_alive) = some false ∧
    ((c5Game.players.get? 1).map Player.coins) = some 6 ∧
    Game.handle_player_death idOracle 10 c5Game 1 = some c5Game := by decide

/-- Seats 0 and 2 claim the Undertaker coins; nobody challenges. -/
def c5PayOracle : Oracle := { idOracle with
  wants_to_claim_undertaker_coins := fun i _ _ => i == 0 || i == 2 }

/-- Seat 1 is dead holding 7 coins; seats 0 and 2 are alive with 2 coins. -/
def c5PayGame : Game := {
  players := [⟨2, [⟨.undertaker, false⟩, ⟨.pope, false⟩]⟩,
              ⟨7, [⟨.undertaker, true⟩, ⟨.pope, true⟩]⟩,
              ⟨2, [⟨.spy, false⟩, ⟨.undertaker, false⟩]⟩],
  deck := [⟨.blackmailer, false⟩],
  current_player_idx := 0, known_dead_cards := [], turn_count := 0,
  last_action := none, last_actor_id := -1, last_target_id := none }

/-- The claim list gathered for `c5PayGame`: seats 0 and 2. -/
def c5PayStore : List RoleClaim :=
  [{ player_id := 0, role := Role.undertaker, is_counter := false },
   { player_id := 2, role := Role.undertaker, is_counter := false }]

/-- Witness for C5's amended statement: two surviving claims on 7 coins
pay `7 // 2 = 3` to each claimant (2 → 5) and zero the dead seat. -/
theorem handle_player_death_payout_witness :
    ∃ g', Game.handle_player_death c5PayOracle 10 c5PayGame 1 = some g' ∧
      (g'.players.get? 1).map Player.coins = some 0 ∧
      (g'.players.get? 0).map Player.coins = some 5 ∧
      (g'.players.get? 2).map Player.coins = some 5 := by
  obtain ⟨g', hg'⟩ := Option.isSome_iff_exists.mp
    (show (Game.handle_player_death c5PayOracle 10 c5PayGame 1).isSome = true by decide)
  obtain ⟨f, g₁, store, live, hf, hscan, _, _, hpay⟩ :=
    handle_player_death_payout c5PayOracle 10 c5PayGame g' 1
      ⟨7, [⟨.undertaker, true⟩, ⟨.pope, true⟩]⟩ (by decide) (by decide) hg'
  have hf9 : f = 9 := by omega
  subst hf9
  have hcomp : Game.ut_scan_claims c5PayOracle 9 c5PayGame
      (Game.gather_undertaker_claims c5PayOracle c5PayGame 1
        ((⟨7, [⟨.undertaker, true⟩, ⟨.pope, true⟩]⟩ : Player).coins))
      (List.range (Game.gather_undertaker_claims c5PayOracle c5PayGame 1
        ((⟨7, [⟨.undertaker, true⟩, ⟨.pope, true⟩]⟩ : Player).coins)).length)
      (List.range (Game.gather_undertaker_claims c5PayOracle c5PayGame 1
        ((⟨7, [⟨.undertaker, true⟩, ⟨.pope, true⟩]⟩ : Player).coins)).length)
      = some (c5PayGame, c5PayStore, [0, 1]) := by decide
  have htup := Option.some.inj (hscan.symm.trans hcomp)
  obtain ⟨rfl, rfl, rfl⟩ : g₁ = c5PayGame ∧ store = c5PayStore ∧ live = [0, 1] :=
    ⟨congrArg Prod.fst htup, congrArg (fun x => x.2.1) htup,
      congrArg (fun x => x.2.2) htup⟩
  obtain ⟨⟨dp', hdp', hdp'c, _⟩, hcl⟩ := hpay (by decide)
    ⟨7, [⟨.undertaker, true⟩, ⟨.pope, true⟩]⟩ (by decide)
  obtain ⟨p0', hp0', _, hc0⟩ := hcl 0 (by decide)
    { player_id := 0, role := Role.undertaker, is_counter := false } (by decide)
    ⟨2, [⟨.undertaker, false⟩, ⟨.pope, false⟩]⟩ (by decide)
  obtain ⟨p2', hp2', _, hc2⟩ := hcl 1 (by decide)
    { player_id := 2, role := Role.undertaker, is_counter := false } (by decide)
    ⟨2, [⟨.spy, false⟩, ⟨.undertaker, false⟩]⟩ (by decide)
  refine ⟨g', hg', ?_, ?_, ?_⟩
  · rw [hdp']
    simp [hdp'c]
  · rw [hp0']
    have : p0'.coins = 5 := by rw [hc0]; decide
    simp [this]
  · rw [hp2']
    have : p2'.coins = 5 := by rw [hc2]; decide
    simp [this]

/-! ### C2: card conservation, operation by operation -/

theorem total_cards_setPlayer {g : Game} {i : Nat} {p q : Player}
    (hp : g.players.get? i = some p) (hlen : q.cards.length = p.cards.length) :
    (g.setPlayer i q).total_cards = g.total_cards := by
  unfold Game.total_cards Game.setPlayer
  simp only
  have := handSum_set g.players i p q hp
  unfold handSum at this
  omega

theorem total_cards_addCoins {g g' : Game} {i : Nat} {k : Int}
    (h : g.addCoins i k = some g') : g'.total_cards = g.total_cards := by
  unfold Game.addCoins Game.getPlayer at h
  cases hp : g.players.get? i with
  | none => rw [hp] at h; cases h
  | some p =>
      rw [hp] at h
      cases Option.some.inj h
      exact total_cards_setPlayer hp rfl

theorem total_cards_replace_card {o : Oracle} (ho : o.shuffleOK) {g g' : Game}
    {pid : Nat} {role : Role} (h : Game.replace_card o g pid role = some g') :
    g'.total_cards = g.total_cards := by
  unfold Game.replace_card at h
  cases hp : g.getPlayer pid with
  | none => rw [hp] at h; cases h
  | some player =>
      rw [hp] at h
      simp only [Option.bind_eq_bind', Option.some_bind] at h
      split at h
      · cases Option.some.inj h
        rfl
      · rename_i i hidx
        cases hci : player.cards.get? i with
        | none => rw [hci] at h; cases h
        | some card =>
            rw [hci] at h
            simp only [Option.some_bind] at h
            by_cases halive : player.is_alive = true
            all_goals
              simp only [halive, if_true, if_false, Bool.false_eq_true] at h
            all_goals {
              cases hpop : popLast g.deck with
              | none => rw [hpop] at h; cases h
              | some pr =>
                  obtain ⟨newCard, deck'⟩ := pr
                  rw [hpop] at h
                  simp only [Option.some_bind] at h
                  cases Option.some.inj h
                  have hdlen : deck'.length + 1 = g.deck.length := popLast_length hpop
                  have hshuf : (o.shuffle (deck' ++ [card])).length =
                      deck'.length + 1 := by
                    rw [(ho (deck' ++ [card])).length_eq]; simp
                  have hhs := handSum_set g.players pid player
                    { player with cards := player.cards.set i newCard } hp
                  unfold handSum at hhs
                  unfold Game.total_cards Game.setPlayer
                  simp only [List.length_set] at hhs ⊢
                  omega }

theorem total_cards_distribute {store : List RoleClaim} {cp : Int} :
    ∀ {ks : List Nat} {g g' : Game},
      Game.distribute_coins store cp ks g = some g' →
      g'.total_cards = g.total_cards := by
  intro ks
  induction ks with
  | nil =>
      intro g g' h
      cases Option.some.inj h
      rfl
  | cons k ks ih =>
      intro g g' h
      simp only [Game.distribute_coins, Option.bind_eq_bind'] at h
      cases hcl : store.get? k with
      | none => rw [hcl] at h; cases h
      | some claim =>
          rw [hcl] at h
          simp only [Option.some_bind] at h
          cases hadd : g.addCoins claim.player_id cp with
          | none => rw [hadd] at h; cases h
          | some g1 =>
              rw [hadd] at h
              simp only [Option.some_bind] at h
              rw [ih h, total_cards_addCoins hadd]

/-- Joint card-conservation statement for the elimination / death-handler
recursion. -/
theorem elim_death_total (o : Oracle) (ho : o.shuffleOK) : ∀ fuel : Nat,
    (∀ g pid g', Game.eliminate_card o fuel g pid = some g' →
      g'.total_cards = g.total_cards) ∧
    (∀ g did g', Game.handle_player_death o fuel g did = some g' →
      g'.total_cards = g.total_cards) ∧
    (∀ g store live ks r, Game.ut_scan_claims o fuel g store live ks = some r →
      r.1.total_cards = g.total_cards) ∧
    (∀ g store live k is r, Game.ut_scan_players o fuel g store live k is = some r →
      r.1.total_cards = g.total_cards) := by
  intro fuel
  induction fuel with
  | zero =>
      refine ⟨?_, ?_, ?_, ?_⟩
      · intro g pid g' h
        simp only [Game.eliminate_card] at h
        cases h
      · intro g did g' h
        simp only [Game.handle_player_death] at h
        cases h
      · intro g store live ks r h
        simp only [Game.ut_scan_claims] at h
        cases h
      · intro g store live k is r h
        simp only [Game.ut_scan_players] at h
        cases h
  | succ f ih =>
      obtain ⟨ihE, ihD, ihC, ihP⟩ := ih
      refine ⟨?_, ?_, ?_, ?_⟩
      -- eliminate_card
      · intro g pid g' h
        simp only [Game.eliminate_card, Option.bind_eq_bind'] at h
        cases hp : g.getPlayer pid with
        | none => rw [hp] at h; cases h
        | some player =>
            rw [hp] at h
            simp only [Option.some_bind] at h
            by_cases hempty :
                ((player.cards.enum.filter (fun ic => !ic.2.revealed)).map Prod.fst).isEmpty
                = true
            · rw [if_pos hempty] at h
              cases Option.some.inj h
              rfl
            · rw [if_neg hempty] at h
              cases hj : pyIdx player.cards.length (o.choose_card_to_lose pid player.cards) with
              | none => rw [hj] at h; cases h
              | some j =>
                  rw [hj] at h
                  simp only [Option.some_bind] at h
                  cases hc : player.cards.get? j with
                  | none => rw [hc] at h; cases h
                  | some revealed_card =>
                      rw [hc] at h
                      simp only [Option.some_bind] at h
                      have hsetlen : ({ player with cards := player.cards.set j { revealed_card with revealed := true } } : Player).cards.length = player.cards.length := by
                        simp [List.length_set]
                      by_cases halive : ({ player with cards := player.cards.set j { revealed_card with revealed := true } } : Player).is_alive = true
                      · rw [if_pos halive] at h
                        cases Option.some.inj h
                        exact total_cards_setPlayer hp hsetlen
                      · rw [if_neg halive] at h
                        have hmid := ihD _ _ _ h
                        rw [hmid]
                        exact total_cards_setPlayer hp hsetlen
      -- handle_player_death
      · intro g did g' h
        simp only [Game.handle_player_death, Option.bind_eq_bind'] at h
        cases hp : g.getPlayer did with
        | none => rw [hp] at h; cases h
        | some dead_player =>
            rw [hp] at h
            simp only [Option.some_bind] at h
            by_cases hc0 : dead_player.coins ≤ 0
            · rw [if_pos hc0] at h
              cases Option.some.inj h
              rfl
            · rw [if_neg hc0] at h
              cases hscan : Game.ut_scan_claims o f g
                  (Game.gather_undertaker_claims o g did dead_player.coins)
                  (List.range (Game.gather_undertaker_claims o g did dead_player.coins).length)
                  (List.range (Game.gather_undertaker_claims o g did dead_player.coins).length)
                  with
              | none => rw [hscan] at h; cases h
              | some r =>
                  rw [hscan] at h
                  obtain ⟨g1, store1, live1⟩ := r
                  have hg1 : g1.total_cards = g.total_cards := ihC _ _ _ _ _ hscan
                  simp only [Option.some_bind] at h
                  by_cases hpos : live1.length > 0
                  · rw [if_pos hpos] at h
                    cases hp2 : g1.getPlayer did with
                    | none => rw [hp2] at h; cases h
                    | some dp2 =>
                        rw [hp2] at h
                        simp only [Option.some_bind] at h
                        cases hdist : Game.distribute_coins store1
                            (Int.ediv dp2.coins (live1.length : Int)) live1 g1 with
                        | none => rw [hdist] at h; cases h
                        | some g2 =>
                            rw [hdist] at h
                            simp only [Option.some_bind] at h
                            cases hp3 : g2.getPlayer did with
                            | none => rw [hp3] at h; cases h
                            | some dp3 =>
                                rw [hp3] at h
                                simp only [Option.some_bind] at h
                                cases Option.some.inj h
                                rw [total_cards_setPlayer hp3
                                    (rfl : ({ dp3 with coins := 0 } : Player).cards.length = dp3.cards.length),
                                  total_cards_distribute hdist, hg1]
                  · rw [if_neg hpos] at h
                    cases Option.some.inj h
                    exact hg1
      -- ut_scan_claims
      · intro g store live ks r h
        cases ks with
        | nil =>
            simp only [Game.ut_scan_claims] at h
            cases Option.some.inj h
            rfl
        | cons k rest =>
            simp only [Game.ut_scan_claims, Option.bind_eq_bind'] at h
            cases hin : Game.ut_scan_players o f g store live k
                (List.range g.players.length) with
            | none => rw [hin] at h; cases h
            | some r1 =>
                rw [hin] at h
                obtain ⟨g1, store1, live1⟩ := r1
                simp only [Option.some_bind] at h
                rw [ihC _ _ _ _ _ h]
                exact ihP _ _ _ _ _ _ hin
      -- ut_scan_players
      · intro g store live k is r h
        cases is with
        | nil =>
            simp only [Game.ut_scan_players] at h
            cases Option.some.inj h
            rfl
        | cons i rest =>
            simp only [Game.ut_scan_players, Option.bind_eq_bind'] at h
            cases hcl : store.get? k with
            | none => rw [hcl] at h; cases h
            | some claim =>
                rw [hcl] at h
                simp only [Option.some_bind] at h
                by_cases hcond : (i != claim.player_id && g.aliveIdx i &&
                    o.wants_to_challenge i claim g) = true
                · rw [if_pos hcond] at h
                  cases hhr : g.player_has_role claim.player_id Role.undertaker with
                  | none => rw [hhr] at h; cases h
                  | some has_role =>
                      rw [hhr] at h
                      simp only [Option.some_bind] at h
                      have hg_hr : ∀ {g₂ : Game} {b : Bool},
                          g₂.player_has_role claim.player_id Role.undertaker = some b →
                          True := fun _ => trivial
                      cases has_role with
                      | true =>
                          simp only [if_true] at h
                          cases helim : Game.eliminate_card o f g i with
                          | none => rw [helim] at h; cases h
                          | some ga =>
                              rw [helim] at h
                              simp only [Option.some_bind] at h
                              cases hrep : Game.replace_card o ga claim.player_id
                                  Role.undertaker with
                              | none => rw [hrep] at h; cases h
                              | some gb =>
                                  rw [hrep] at h
                                  simp only [Option.some_bind] at h
                                  rw [ihP _ _ _ _ _ _ h,
                                    total_cards_replace_card ho hrep, ihE _ _ _ helim]
                      | false =>
                          simp only [Bool.false_eq_true, if_false] at h
                          cases helim : Game.eliminate_card o f g claim.player_id with
                          | none => rw [helim] at h; cases h
                          | some ga =>
                              rw [helim] at h
                              simp only [Option.some_bind] at h
                              by_cases hk : k ∈ live
                              · rw [if_pos hk] at h
                                rw [ihP _ _ _ _ _ _ h, ihE _ _ _ helim]
                              · rw [if_neg hk] at h; cases h
                · rw [if_neg hcond] at h
                  exact ihP _ _ _ _ _ _ h

theorem total_cards_resolve_one (o : Oracle) (ho : o.shuffleOK) {fuel : Nat}
    {g g' : Game} {c c' : RoleClaim}
    (h : Game.resolve_one_claim o fuel g c = some (g', c')) :
    g'.total_cards = g.total_cards := by
  unfold Game.resolve_one_claim at h
  cases hch : c.challenged_by with
  | none =>
      rw [hch] at h
      cases Option.some.inj h
      rfl
  | some challenger =>
      rw [hch] at h
      simp only [Option.bind_eq_bind', Option.some_bind] at h
      cases hhr : g.player_has_role c.player_id c.role with
      | none => rw [hhr] at h; cases h
      | some has_role =>
          rw [hhr] at h
          simp only [Option.some_bind] at h
          cases has_role with
          | true =>
              simp only [if_true] at h
              cases helim : Game.eliminate_card o fuel g challenger with
              | none => rw [helim] at h; cases h
              | some ga =>
                  rw [helim] at h
                  simp only [Option.some_bind] at h
                  cases hrep : Game.replace_card o ga c.player_id c.role with
                  | none => rw [hrep] at h; cases h
                  | some gb =>
                      rw [hrep] at h
                      simp only [Option.some_bind] at h
                      cases Option.some.inj h
                      rw [total_cards_replace_card ho hrep,
                        (elim_death_total o ho fuel).1 _ _ _ helim]
          | false =>
              simp only [Bool.false_eq_true, if_false] at h
              cases helim : Game.eliminate_card o fuel g c.player_id with
              | none => rw [helim] at h; cases h
              | some ga =>
                  rw [helim] at h
                  simp only [Option.some_bind] at h
                  cases Option.some.inj h
                  exact (elim_death_total o ho fuel).1 _ _ _ helim

theorem total_cards_resolve_list (o : Oracle) (ho : o.shuffleOK) {fuel : Nat} :
    ∀ {claims : List RoleClaim} {g g' : Game} {out : List RoleClaim},
      Game.resolve_claim_list o fuel g claims = some (g', out) →
      g'.total_cards = g.total_cards := by
  intro claims
  induction claims with
  | nil =>
      intro g g' out h
      cases Option.some.inj h
      rfl
  | cons c rest ih =>
      intro g g' out h
      simp only [Game.resolve_claim_list, Option.bind_eq_bind'] at h
      cases h1 : Game.resolve_one_claim o fuel g c with
      | none => rw [h1] at h; cases h
      | some pr1 =>
          obtain ⟨g1, c1⟩ := pr1
          rw [h1] at h
          simp only [Option.some_bind] at h
          cases h2 : Game.resolve_claim_list o fuel g1 rest with
          | none => rw [h2] at h; cases h
          | some pr2 =>
              obtain ⟨g2, rest2⟩ := pr2
              rw [h2] at h
              simp only [Option.some_bind] at h
              cases Option.some.inj h
              rw [ih h2, total_cards_resolve_one o ho h1]

theorem total_cards_resolve_claims (o : Oracle) (ho : o.shuffleOK) {fuel : Nat}
    {g g' : Game} {res res' : ActionResolution}
    (h : Game.resolve_claims o fuel g res = some (g', res')) :
    g'.total_cards = g.total_cards := by
  unfold Game.resolve_claims at h
  cases hl : Game.resolve_claim_list o fuel g res.role_claims with
  | none => rw [hl] at h; cases h
  | some pr =>
      obtain ⟨g1, out⟩ := pr
      rw [hl] at h
      simp only [Option.bind_eq_bind', Option.some_bind] at h
      cases Option.some.inj h
      exact total_cards_resolve_list o ho hl

theorem total_cards_pay_loop {actor : Nat} :
    ∀ {ids : List Nat} {g g' : Game},
      Game.pay_one_coin_each actor ids g = some g' →
      g'.total_cards = g.total_cards := by
  intro ids
  induction ids with
  | nil =>
      intro g g' h
      cases Option.some.inj h
      rfl
  | cons pid rest ih =>
      intro g g' h
      simp only [Game.pay_one_coin_each, Option.bind_eq_bind'] at h
      cases hp : g.getPlayer actor with
      | none => rw [hp] at h; cases h
      | some cp =>
          rw [hp] at h
          simp only [Option.some_bind] at h
          by_cases hc : cp.coins > 0
          · rw [if_pos hc] at h
            cases ha : g.addCoins actor (-1) with
            | none => rw [ha] at h; cases h
            | some g1 =>
                rw [ha] at h
                simp only [Option.some_bind] at h
                cases hb : g1.addCoins pid 1 with
                | none => rw [hb] at h; cases h
                | some g2 =>
                    rw [hb] at h
                    simp only [Option.some_bind] at h
                    rw [ih h, total_cards_addCoins hb, total_cards_addCoins ha]
          · rw [if_neg hc] at h
            simp only [Option.pure_def, Option.some_bind] at h
            exact ih h

theorem total_cards_pope_loop {actor : Nat} {claims : List RoleClaim} :
    ∀ {ids : List Nat} {g g' : Game},
      Game.pope_loop actor claims ids g = some g' →
      g'.total_cards = g.total_cards := by
  intro ids
  induction ids with
  | nil =>
      intro g g' h
      cases Option.some.inj h
      rfl
  | cons i rest ih =>
      intro g g' h
      simp only [Game.pope_loop, Option.bind_eq_bind'] at h
      by_cases hi : (i != actor) = true
      · rw [if_pos hi] at h
        by_cases hcr : (!claims.any (fun c =>
            c.player_id == i && c.was_successful && c.is_counter)) = true
        · rw [if_pos hcr] at h
          cases hp : g.getPlayer i with
          | none => rw [hp] at h; cases h
          | some player =>
              rw [hp] at h
              simp only [Option.some_bind] at h
              by_cases hc : player.coins > 0
              · rw [if_pos hc] at h
                cases ha : g.addCoins i (-1) with
                | none => rw [ha] at h; cases h
                | some g1 =>
                    rw [ha] at h
                    simp only [Option.some_bind] at h
                    cases hb : g1.addCoins actor 1 with
                    | none => rw [hb] at h; cases h
                    | some g2 =>
                        rw [hb] at h
                        simp only [Option.some_bind] at h
                        rw [ih h, total_cards_addCoins hb, total_cards_addCoins ha]
              · rw [if_neg hc] at h
                simp only [Option.pure_def, Option.some_bind] at h
                exact ih h
        · rw [if_neg hcr] at h
          simp only [Option.pure_def, Option.some_bind] at h
          exact ih h
      · rw [if_neg hi] at h
        simp only [Option.pure_def, Option.some_bind] at h
        exact ih h

theorem total_cards_spy_draw (o : Oracle) (ho : o.shuffleOK) {actor : Nat}
    {g g' : Game} (h : Game.spy_draw_discard o actor g = some g') :
    g'.total_cards = g.total_cards := by
  unfold Game.spy_draw_discard at h
  cases hpop : popLast g.deck with
  | none => rw [hpop] at h; cases h
  | some pr =>
      obtain ⟨new_card, deck1⟩ := pr
      rw [hpop] at h
      simp only [Option.bind_eq_bind', Option.some_bind] at h
      cases hp : g.getPlayer actor with
      | none => rw [hp] at h; cases h
      | some player =>
          rw [hp] at h
          simp only [Option.some_bind] at h
          cases hpa : pyPopAt (player.cards ++ [new_card])
              (o.choose_card_to_discard actor (player.cards ++ [new_card])) with
          | none => rw [hpa] at h; cases h
          | some pr2 =>
              obtain ⟨discarded, cards2⟩ := pr2
              rw [hpa] at h
              simp only [Option.some_bind] at h
              cases Option.some.inj h
              have h1 : deck1.length + 1 = g.deck.length := popLast_length hpop
              have h2 : cards2.length + 1 = (player.cards ++ [new_card]).length :=
                pyPopAt_length hpa
              have h5 : (o.shuffle (deck1 ++ [discarded])).length = deck1.length + 1 := by
                rw [(ho (deck1 ++ [discarded])).length_eq]; simp
              have h3 := handSum_set g.players actor player
                ({ player with cards := cards2 }) hp
              unfold Game.total_cards Game.setPlayer
              simp only [List.set_set]
              unfold handSum at h3
              simp only [List.length_append, List.length_cons, List.length_nil] at h2 h3 ⊢
              omega

theorem total_cards_spy_loop (o : Oracle) (ho : o.shuffleOK) {actor : Nat} :
    ∀ {fuel : Nat} {g g' : Game},
      Game.spy_redo_loop o actor fuel g = some g' →
      g'.total_cards = g.total_cards := by
  intro fuel
  induction fuel with
  | zero =>
      intro g g' h
      simp only [Game.spy_redo_loop] at h
      cases h
  | succ f ih =>
      intro g g' h
      simp only [Game.spy_redo_loop, Option.bind_eq_bind'] at h
      cases hp : g.getPlayer actor with
      | none => rw [hp] at h; cases h
      | some player =>
          rw [hp] at h
          simp only [Option.some_bind] at h
          by_cases hc : (decide (player.coins ≥ 1) && o.wants_to_redo_spy actor g) = true
          · rw [if_pos hc] at h
            cases ha : g.addCoins actor (-1) with
            | none => rw [ha] at h; cases h
            | some g1 =>
                rw [ha] at h
                simp only [Option.some_bind] at h
                cases hd : Game.spy_draw_discard o actor g1 with
                | none => rw [hd] at h; cases h
                | some g2 =>
                    rw [hd] at h
                    simp only [Option.some_bind] at h
                    rw [ih h, total_cards_spy_draw o ho hd, total_cards_addCoins ha]
          · rw [if_neg hc] at h
            cases Option.some.inj h
            rfl

theorem total_cards_execute (o : Oracle) (ho : o.shuffleOK) {fuel : Nat}
    {g g' : Game} {res : ActionResolution}
    (h : Game.execute_action o fuel g res = some g') :
    g'.total_cards = g.total_cards := by
  unfold Game.execute_action at h
  cases hp0 : g.getPlayer res.actor_id with
  | none => rw [hp0] at h; cases h
  | some p0 =>
  rw [hp0] at h
  simp only [Option.bind_eq_bind', Option.some_bind] at h
  split at h
  -- income
  · exact total_cards_addCoins h
  -- coup
  · split at h
    · cases Option.some.inj h; rfl
    · split at h
      · cases Option.some.inj h; rfl
      · cases ha : g.addCoins res.actor_id (-7) with
        | none => rw [ha] at h; cases h
        | some g1 =>
            rw [ha] at h
            simp only [Option.some_bind] at h
            rw [(elim_death_total o ho fuel).1 _ _ _ h, total_cards_addCoins ha]
  -- foreign aid
  · split at h
    · exact total_cards_addCoins h
    · cases Option.some.inj h; rfl
  -- illusionist
  · cases ha : g.addCoins res.actor_id 4 with
    | none => rw [ha] at h; cases h
    | some g1 =>
        rw [ha] at h
        simp only [Option.some_bind] at h
        cases hb : Game.pay_one_coin_each res.actor_id
            ((res.role_claims.filter (fun c => c.is_counter && c.was_successful)).map
              RoleClaim.player_id) g1 with
        | none => rw [hb] at h; cases h
        | some g2 =>
            rw [hb] at h
            simp only [Option.some_bind] at h
            have hg2 : g2.total_cards = g.total_cards := by
              rw [total_cards_pay_loop hb, total_cards_addCoins ha]
            split at h
            · rw [total_cards_pay_loop h, hg2]
            · cases Option.some.inj h
              exact hg2
  -- blackmailer
  · split at h
    · cases Option.some.inj h; rfl
    · split at h
      · cases Option.some.inj h; rfl
      · split at h
        · cases Option.some.inj h; rfl
        · rename_i t _ _ _
          cases htp : g.getPlayer t with
          | none => rw [htp] at h; cases h
          | some tp =>
              rw [htp] at h
              simp only [Option.some_bind] at h
              split at h
              · cases ha : g.addCoins res.actor_id (-3) with
                | none => rw [ha] at h; cases h
                | some g1 =>
                    rw [ha] at h
                    simp only [Option.some_bind] at h
                    cases hb : g1.addCoins t 3 with
                    | none => rw [hb] at h; cases h
                    | some g2 =>
                        rw [hb] at h
                        simp only [Option.some_bind] at h
                        rw [(elim_death_total o ho fuel).1 _ _ _ h,
                          total_cards_addCoins hb, total_cards_addCoins ha]
              · split at h
                · cases ha : g.addCoins t (-3) with
                  | none => rw [ha] at h; cases h
                  | some g1 =>
                      rw [ha] at h
                      simp only [Option.some_bind] at h
                      rw [total_cards_addCoins h, total_cards_addCoins ha]
                · cases ha : g.addCoins res.actor_id (-3) with
                  | none => rw [ha] at h; cases h
                  | some g1 =>
                      rw [ha] at h
                      simp only [Option.some_bind] at h
                      cases hb : g1.addCoins t 3 with
                      | none => rw [hb] at h; cases h
                      | some g2 =>
                          rw [hb] at h
                          simp only [Option.some_bind] at h
                          rw [(elim_death_total o ho fuel).1 _ _ _ h,
                            total_cards_addCoins hb, total_cards_addCoins ha]
  -- spy
  · cases hd : Game.spy_draw_discard o res.actor_id g with
    | none => rw [hd] at h; cases h
    | some g1 =>
        rw [hd] at h
        simp only [Option.some_bind] at h
        cases hp : g1.getPlayer res.actor_id with
        | none => rw [hp] at h; cases h
        | some player =>
            rw [hp] at h
            simp only [Option.some_bind] at h
            rw [total_cards_spy_loop o ho h, total_cards_spy_draw o ho hd]
  -- pope
  · exact total_cards_pope_loop h

theorem total_cards_next_turn {fuel : Nat} {g g' : Game}
    (h : Game.next_turn fuel g = some g') : g'.total_cards = g.total_cards := by
  unfold Game.next_turn at h
  cases hl : Game.next_turn_loop g fuel
      ((g.current_player_idx + 1) % g.players.length) with
  | none => rw [hl] at h; cases h
  | some idx =>
      rw [hl] at h
      cases Option.some.inj h
      rfl

theorem total_cards_perform_tail (o : Oracle) (ho : o.shuffleOK) {fuel : Nat}
    {g g' : Game} {res : ActionResolution} {b : Bool}
    (h : Game.perform_tail o fuel g res = some (g', b)) :
    g'.total_cards = g.total_cards := by
  unfold Game.perform_tail at h
  simp only [Option.bind_eq_bind'] at h
  cases hrc : Game.resolve_claims o fuel g (Game.handle_all_challenges o g res) with
  | none => rw [hrc] at h; cases h
  | some pr =>
      obtain ⟨g1, res2⟩ := pr
      rw [hrc] at h
      simp only [Option.some_bind] at h
      have hg1 : g1.total_cards = g.total_cards := total_cards_resolve_claims o ho hrc
      split at h
      · cases hex : Game.execute_action o fuel g1 res2 with
        | none => rw [hex] at h; cases h
        | some g2 =>
            rw [hex] at h
            simp only [Option.some_bind] at h
            cases hnt : Game.next_turn fuel g2 with
            | none => rw [hnt] at h; cases h
            | some g3 =>
                rw [hnt] at h
                cases Option.some.inj h
                rw [total_cards_next_turn hnt, total_cards_execute o ho hex, hg1]
      · simp only [Option.pure_def, Option.some_bind] at h
        cases hnt : Game.next_turn fuel g1 with
        | none => rw [hnt] at h; cases h
        | some g3 =>
            rw [hnt] at h
            cases Option.some.inj h
            rw [total_cards_next_turn hnt, hg1]

theorem total_cards_perform_rest (o : Oracle) (ho : o.shuffleOK) {fuel : Nat}
    {g g' : Game} {res : ActionResolution} {b : Bool}
    (h : Game.perform_rest o fuel g res = some (g', b)) :
    g'.total_cards = g.total_cards := by
  unfold Game.perform_rest at h
  simp only [Option.bind_eq_bind'] at h
  split at h
  · cases hhc : Game.handle_counters o g res with
    | none => rw [hhc] at h; cases h
    | some res1 =>
        rw [hhc] at h
        simp only [Option.some_bind] at h
        exact total_cards_perform_tail o ho h
  · simp only [Option.pure_def, Option.some_bind] at h
    exact total_cards_perform_tail o ho h

/-- Card conservation for a full `perform_action` call. -/
theorem total_cards_perform_action (o : Oracle) (ho : o.shuffleOK) {fuel : Nat}
    {g g' : Game} {a : Action} {t : Option Nat} {r : Option Role} {b : Bool}
    (h : Game.perform_action o fuel g a t r = some (g', b)) :
    g'.total_cards = g.total_cards := by
  unfold Game.perform_action at h
  cases hva : g.get_valid_actions with
  | none => rw [hva] at h; cases h
  | some va =>
      rw [hva] at h
      simp only [Option.bind_eq_bind', Option.some_bind] at h
      by_cases hmem : a ∉ va
      · rw [if_pos hmem] at h
        cases Option.some.inj h
        rfl
      · rw [if_neg hmem] at h
        by_cases hrole : requires_role a = true
        · rw [if_pos hrole] at h
          split at h
          · cases Option.some.inj h; rfl
          · exact (total_cards_perform_rest o ho h).trans rfl
        · rw [if_neg hrole] at h
          exact (total_cards_perform_rest o ho h).trans rfl

/-- C2: in every game state reachable after `deal_cards` by any sequence
of `perform_action` calls (any agents, any fuel, permutation shuffles),
the total number of cards in the deck plus all hands equals 3 × 5 = 15;
in particular the Spy draw/discard cycles and the post-challenge card
replacement leave this total unchanged. -/
theorem total_cards_invariant (o₀ : Oracle) (n : Nat) (g₀ g₁ g : Game)
    (h0 : o₀.shuffleOK) (hmk : mkGame o₀ n = some g₀)
    (hdeal : g₀.deal_cards = some g₁) (hr : Reachable g₁ g) :
    g.total_cards = 15 := by
  unfold mkGame at hmk
  by_cases hcond : (3 ≤ n && n ≤ 6) = true
  case neg => rw [if_pos (by simp_all)] at hmk; cases hmk
  rw [if_neg (by simp_all)] at hmk
  cases Option.some.inj hmk
  have hn6 : n ≤ 6 := by
    have := (Bool.and_eq_true _ _).mp hcond
    exact of_decide_eq_true this.2
  have hlen : 2 * (List.replicate n (Player.mk 2 [])).length ≤
      (o₀.shuffle initial_deck).length := by
    rw [(h0 initial_deck).length_eq, initial_deck_length, List.length_replicate]
    omega
  obtain ⟨ps', deck', hloop, hplen, hdlen, _, hhands⟩ :=
    deal_loop_spec (List.replicate n (Player.mk 2 [])) (o₀.shuffle initial_deck) hlen
  unfold Game.deal_cards at hdeal
  rw [hloop] at hdeal
  simp only [Option.bind_eq_bind', Option.some_bind] at hdeal
  cases Option.some.inj hdeal
  have hsum : handSum ps' = ps'.length * 2 := by
    unfold handSum
    rw [List.sum_eq_card_nsmul _ 2]
    · simp [Nat.smul_one_eq_cast]
    · intro x hx
      obtain ⟨p, hp, rfl⟩ := List.mem_map.mp hx
      exact (hhands p hp).1
  have hg1 : deck'.length + (ps'.map (fun p => p.cards.length)).sum = 15 := by
    have h15 : (o₀.shuffle initial_deck).length = 15 := by
      rw [(h0 initial_deck).length_eq, initial_deck_length]
    rw [h15, List.length_replicate] at hdlen
    rw [hplen, List.length_replicate] at hsum
    unfold handSum at hsum
    omega
  clear hmk hdeal hloop hhands hlen hcond hn6
  induction hr with
  | refl => exact hg1
  | step hr' hsh hstep ih =>
      rw [total_cards_perform_action _ hsh hstep]
      exact ih

/-- The 3-player game built with the identity shuffle, before dealing. -/
def preGame3 : Game := {
  players := List.replicate 3 { coins := 2, cards := [] },
  deck := initial_deck,
  current_player_idx := 0, known_dead_cards := [], turn_count := 0,
  last_action := none, last_actor_id := -1, last_target_id := none }

/-- `preGame3` after `deal_cards` (the deck is popped from its end). -/
def dealtGame3 : Game := {
  players := [⟨2, [⟨.blackmailer, false⟩, ⟨.blackmailer, false⟩]⟩,
              ⟨2, [⟨.blackmailer, false⟩, ⟨.pope, false⟩]⟩,
              ⟨2, [⟨.pope, false⟩, ⟨.pope, false⟩]⟩],
  deck := (List.replicate 3 (⟨.illusionist, false⟩ : Card)) ++
          (List.replicate 3 (⟨.spy, false⟩ : Card)) ++
          (List.replicate 3 (⟨.undertaker, false⟩ : Card)),
  current_player_idx := 0, known_dead_cards := [], turn_count := 0,
  last_action := none, last_actor_id := -1, last_target_id := none }

/-- Witness for C2: a fresh 3-player game, dealt, after one Income step,
still totals 15 cards. -/
theorem total_cards_invariant_witness :
    ∃ g₂ b, mkGame idOracle 3 = some preGame3 ∧
      preGame3.deal_cards = some dealtGame3 ∧
      Game.perform_action idOracle 20 dealtGame3 Action.income none none =
        some (g₂, b) ∧
      g₂.total_cards = 15 := by
  obtain ⟨pr, hstep⟩ := Option.isSome_iff_exists.mp
    (show (Game.perform_action idOracle 20 dealtGame3 Action.income none none).isSome
      = true by decide)
  obtain ⟨g₂, b⟩ := pr
  refine ⟨g₂, b, by decide, by decide, hstep, ?_⟩
  exact total_cards_invariant idOracle 3 preGame3 dealtGame3 g₂
    (fun l => List.Perm.refl l) (by decide) (by decide)
    (Reachable.step (Reachable.refl dealtGame3) (fun l => List.Perm.refl l) hstep)

/-! ### C9: coin balances never go negative -/

theorem coins_nonneg_setPlayer {g : Game} {i : Nat} {q : Player}
    (hg : g.coins_nonneg) (hq : 0 ≤ q.coins) : (g.setPlayer i q).coins_nonneg := by
  intro p hp
  rcases List.mem_or_eq_of_mem_set hp with hmem | rfl
  · exact hg p hmem
  · exact hq

theorem coins_nonneg_get {g : Game} {i : Nat} {p : Player}
    (hg : g.coins_nonneg) (hp : g.players.get? i = some p) : 0 ≤ p.coins :=
  hg p (List.get?_mem hp)

theorem coins_nonneg_addCoins {g g' : Game} {i : Nat} {k : Int}
    (h : g.addCoins i k = some g') (hg : g.coins_nonneg)
    (hk : ∀ p, g.players.get? i = some p → 0 ≤ p.coins + k) :
    g'.coins_nonneg := by
  unfold Game.addCoins Game.getPlayer at h
  cases hp : g.players.get? i with
  | none => rw [hp] at h; cases h
  | some p =>
      rw [hp] at h
      cases Option.some.inj h
      exact coins_nonneg_setPlayer hg (hk p hp)

/-- `addCoins` of a nonnegative amount keeps all balances nonnegative. -/
theorem coins_nonneg_addCoins_pos {g g' : Game} {i : Nat} {k : Int}
    (h : g.addCoins i k = some g') (hg : g.coins_nonneg) (hk : 0 ≤ k) :
    g'.coins_nonneg :=
  coins_nonneg_addCoins h hg (fun p hp =>
    add_nonneg (coins_nonneg_get hg hp) hk)

theorem coins_nonneg_replace_card {o : Oracle} {g g' : Game}
    {pid : Nat} {role : Role} (h : Game.replace_card o g pid role = some g')
    (hg : g.coins_nonneg) : g'.coins_nonneg := by
  unfold Game.replace_card at h
  cases hp : g.getPlayer pid with
  | none => rw [hp] at h; cases h
  | some player =>
      rw [hp] at h
      simp only [Option.bind_eq_bind', Option.some_bind] at h
      split at h
      · cases Option.some.inj h
        exact hg
      · rename_i i hidx
        cases hci : player.cards.get? i with
        | none => rw [hci] at h; cases h
        | some card =>
            rw [hci] at h
            simp only [Option.some_bind] at h
            by_cases halive : player.is_alive = true
            all_goals
              simp only [halive, if_true, if_false, Bool.false_eq_true] at h
            all_goals {
              cases hpop : popLast g.deck with
              | none => rw [hpop] at h; cases h
              | some pr =>
                  obtain ⟨newCard, deck'⟩ := pr
                  rw [hpop] at h
                  simp only [Option.some_bind] at h
                  cases Option.some.inj h
                  refine coins_nonneg_setPlayer (fun p hp2 => hg p hp2) ?_
                  show 0 ≤ player.coins
                  exact coins_nonneg_get hg hp }

theorem coins_nonneg_distribute {store : List RoleClaim} {cp : Int} (hcp : 0 ≤ cp) :
    ∀ {ks : List Nat} {g g' : Game},
      Game.distribute_coins store cp ks g = some g' →
      g.coins_nonneg → g'.coins_nonneg := by
  intro ks
  induction ks with
  | nil =>
      intro g g' h hg
      cases Option.some.inj h
      exact hg
  | cons k ks ih =>
      intro g g' h hg
      simp only [Game.distribute_coins, Option.bind_eq_bind'] at h
      cases hcl : store.get? k with
      | none => rw [hcl] at h; cases h
      | some claim =>
          rw [hcl] at h
          simp only [Option.some_bind] at h
          cases hadd : g.addCoins claim.player_id cp with
          | none => rw [hadd] at h; cases h
          | some g1 =>
              rw [hadd] at h
              simp only [Option.some_bind] at h
              exact ih h (coins_nonneg_addCoins_pos hadd hg hcp)

/-- Joint nonnegativity statement for the elimination / death-handler
recursion. -/
theorem elim_death_nonneg (o : Oracle) : ∀ fuel : Nat,
    (∀ g pid g', Game.eliminate_card o fuel g pid = some g' →
      g.coins_nonneg → g'.coins_nonneg) ∧
    (∀ g did g', Game.handle_player_death o fuel g did = some g' →
      g.coins_nonneg → g'.coins_nonneg) ∧
    (∀ g store live ks r, Game.ut_scan_claims o fuel g store live ks = some r →
      g.coins_nonneg → r.1.coins_nonneg) ∧
    (∀ g store live k is r, Game.ut_scan_players o fuel g store live k is = some r →
      g.coins_nonneg → r.1.coins_nonneg) := by
  intro fuel
  induction fuel with
  | zero =>
      refine ⟨?_, ?_, ?_, ?_⟩
      · intro g pid g' h
        simp only [Game.eliminate_card] at h
        cases h
      · intro g did g' h
        simp only [Game.handle_player_death] at h
        cases h
      · intro g store live ks r h
        simp only [Game.ut_scan_claims] at h
        cases h
      · intro g store live k is r h
        simp only [Game.ut_scan_players] at h
        cases h
  | succ f ih =>
      obtain ⟨ihE, ihD, ihC, ihP⟩ := ih
      refine ⟨?_, ?_, ?_, ?_⟩
      -- eliminate_card
      · intro g pid g' h hg
        simp only [Game.eliminate_card, Option.bind_eq_bind'] at h
        cases hp : g.getPlayer pid with
        | none => rw [hp] at h; cases h
        | some player =>
            rw [hp] at h
            simp only [Option.some_bind] at h
            by_cases hempty :
                ((player.cards.enum.filter (fun ic => !ic.2.revealed)).map Prod.fst).isEmpty
                = true
            · rw [if_pos hempty] at h
              cases Option.some.inj h
              exact hg
            · rw [if_neg hempty] at h
              cases hj : pyIdx player.cards.length (o.choose_card_to_lose pid player.cards) with
              | none => rw [hj] at h; cases h
              | some j =>
                  rw [hj] at h
                  simp only [Option.some_bind] at h
                  cases hc : player.cards.get? j with
                  | none => rw [hc] at h; cases h
                  | some revealed_card =>
                      rw [hc] at h
                      simp only [Option.some_bind] at h
                      have hmid : (g.setPlayer pid { player with cards := player.cards.set j { revealed_card with revealed := true } }).coins_nonneg :=
                        coins_nonneg_setPlayer hg
                          (show (0 : Int) ≤ player.coins from coins_nonneg_get hg hp)
                      by_cases halive : ({ player with cards := player.cards.set j { revealed_card with revealed := true } } : Player).is_alive = true
                      · rw [if_pos halive] at h
                        cases Option.some.inj h
                        exact hmid
                      · rw [if_neg halive] at h
                        exact ihD _ _ _ h (fun p hp2 => hmid p hp2)
      -- handle_player_death
      · intro g did g' h hg
        simp only [Game.handle_player_death, Option.bind_eq_bind'] at h
        cases hp : g.getPlayer did with
        | none => rw [hp] at h; cases h
        | some dead_player =>
            rw [hp] at h
            simp only [Option.some_bind] at h
            by_cases hc0 : dead_player.coins ≤ 0
            · rw [if_pos hc0] at h
              cases Option.some.inj h
              exact hg
            · rw [if_neg hc0] at h
              cases hscan : Game.ut_scan_claims o f g
                  (Game.gather_undertaker_claims o g did dead_player.coins)
                  (List.range (Game.gather_undertaker_claims o g did dead_player.coins).length)
                  (List.range (Game.gather_undertaker_claims o g did dead_player.coins).length)
                  with
              | none => rw [hscan] at h; cases h
              | some r =>
                  rw [hscan] at h
                  obtain ⟨g1, store1, live1⟩ := r
                  have hg1 : g1.coins_nonneg := ihC _ _ _ _ _ hscan hg
                  simp only [Option.some_bind] at h
                  by_cases hpos : live1.length > 0
                  · rw [if_pos hpos] at h
                    cases hp2 : g1.getPlayer did with
                    | none => rw [hp2] at h; cases h
                    | some dp2 =>
                        rw [hp2] at h
                        simp only [Option.some_bind] at h
                        cases hdist : Game.distribute_coins store1
                            (Int.ediv dp2.coins (live1.length : Int)) live1 g1 with
                        | none => rw [hdist] at h; cases h
                        | some g2 =>
                            rw [hdist] at h
                            simp only [Option.some_bind] at h
                            cases hp3 : g2.getPlayer did with
                            | none => rw [hp3] at h; cases h
                            | some dp3 =>
                                rw [hp3] at h
                                simp only [Option.some_bind] at h
                                cases Option.some.inj h
                                have hcp : 0 ≤ Int.ediv dp2.coins (live1.length : Int) :=
                                  Int.ediv_nonneg (coins_nonneg_get hg1 hp2)
                                    (Int.ofNat_nonneg _)
                                have hg2 : g2.coins_nonneg :=
                                  coins_nonneg_distribute hcp hdist hg1
                                exact coins_nonneg_setPlayer hg2 le_rfl
                  · rw [if_neg hpos] at h
                    cases Option.some.inj h
                    exact hg1
      -- ut_scan_claims
      · intro g store live ks r h hg
        cases ks with
        | nil =>
            simp only [Game.ut_scan_claims] at h
            cases Option.some.inj h
            exact hg
        | cons k rest =>
            simp only [Game.ut_scan_claims, Option.bind_eq_bind'] at h
            cases hin : Game.ut_scan_players o f g store live k
                (List.range g.players.length) with
            | none => rw [hin] at h; cases h
            | some r1 =>
                rw [hin] at h
                obtain ⟨g1, store1, live1⟩ := r1
                simp only [Option.some_bind] at h
                exact ihC _ _ _ _ _ h (ihP _ _ _ _ _ _ hin hg)
      -- ut_scan_players
      · intro g store live k is r h hg
        cases is with
        | nil =>
            simp only [Game.ut_scan_players] at h
            cases Option.some.inj h
            exact hg
        | cons i rest =>
            simp only [Game.ut_scan_players, Option.bind_eq_bind'] at h
            cases hcl : store.get? k with
            | none => rw [hcl] at h; cases h
            | some claim =>
                rw [hcl] at h
                simp only [Option.some_bind] at h
                by_cases hcond : (i != claim.player_id && g.aliveIdx i &&
                    o.wants_to_challenge i claim g) = true
                · rw [if_pos hcond] at h
                  cases hhr : g.player_has_role claim.player_id Role.undertaker with
                  | none => rw [hhr] at h; cases h
                  | some has_role =>
                      rw [hhr] at h
                      simp only [Option.some_bind] at h
                      cases has_role with
                      | true =>
                          simp only [if_true] at h
                          cases helim : Game.eliminate_card o f g i with
                          | none => rw [helim] at h; cases h
                          | some ga =>
                              rw [helim] at h
                              simp only [Option.some_bind] at h
                              cases hrep : Game.replace_card o ga claim.player_id
                                  Role.undertaker with
                              | none => rw [hrep] at h; cases h
                              | some gb =>
                                  rw [hrep] at h
                                  simp only [Option.some_bind] at h
                                  exact ihP _ _ _ _ _ _ h
                                    (coins_nonneg_replace_card hrep
                                      (ihE _ _ _ helim hg))
                      | false =>
                          simp only [Bool.false_eq_true, if_false] at h
                          cases helim : Game.eliminate_card o f g claim.player_id with
                          | none => rw [helim] at h; cases h
                          | some ga =>
                              rw [helim] at h
                              simp only [Option.some_bind] at h
                              by_cases hk : k ∈ live
                              · rw [if_pos hk] at h
                                exact ihP _ _ _ _ _ _ h (ihE _ _ _ helim hg)
                              · rw [if_neg hk] at h; cases h
                · rw [if_neg hcond] at h
                  exact ihP _ _ _ _ _ _ h hg

theorem coins_nonneg_resolve_one (o : Oracle) {fuel : Nat}
    {g g' : Game} {c c' : RoleClaim}
    (h : Game.resolve_one_claim o fuel g c = some (g', c'))
    (hg : g.coins_nonneg) : g'.coins_nonneg := by
  unfold Game.resolve_one_claim at h
  cases hch : c.challenged_by with
  | none =>
      rw [hch] at h
      cases Option.some.inj h
      exact hg
  | some challenger =>
      rw [hch] at h
      simp only [Option.bind_eq_bind', Option.some_bind] at h
      cases hhr : g.player_has_role c.player_id c.role with
      | none => rw [hhr] at h; cases h
      | some has_role =>
          rw [hhr] at h
          simp only [Option.some_bind] at h
          cases has_role with
          | true =>
              simp only [if_true] at h
              cases helim : Game.eliminate_card o fuel g challenger with
              | none => rw [helim] at h; cases h
              | some ga =>
                  rw [helim] at h
                  simp only [Option.some_bind] at h
                  cases hrep : Game.replace_card o ga c.player_id c.role with
                  | none => rw [hrep] at h; cases h
                  | some gb =>
                      rw [hrep] at h
                      simp only [Option.some_bind] at h
                      cases Option.some.inj h
                      exact coins_nonneg_replace_card hrep
                        ((elim_death_nonneg o fuel).1 _ _ _ helim hg)
          | false =>
              simp only [Bool.false_eq_true, if_false] at h
              cases helim : Game.eliminate_card o fuel g c.player_id with
              | none => rw [helim] at h; cases h
              | some ga =>
                  rw [helim] at h
                  simp only [Option.some_bind] at h
                  cases Option.some.inj h
                  exact (elim_death_nonneg o fuel).1 _ _ _ helim hg

theorem coins_nonneg_resolve_list (o : Oracle) {fuel : Nat} :
    ∀ {claims : List RoleClaim} {g g' : Game} {out : List RoleClaim},
      Game.resolve_claim_list o fuel g claims = some (g', out) →
      g.coins_nonneg → g'.coins_nonneg := by
  intro claims
  induction claims with
  | nil =>
      intro g g' out h hg
      cases Option.some.inj h
      exact hg
  | cons c rest ih =>
      intro g g' out h hg
      simp only [Game.resolve_claim_list, Option.bind_eq_bind'] at h
      cases h1 : Game.resolve_one_claim o fuel g c with
      | none => rw [h1] at h; cases h
      | some pr1 =>
          obtain ⟨g1, c1⟩ := pr1
          rw [h1] at h
          simp only [Option.some_bind] at h
          cases h2 : Game.resolve_claim_list o fuel g1 rest with
          | none => rw [h2] at h; cases h
          | some pr2 =>
              obtain ⟨g2, rest2⟩ := pr2
              rw [h2] at h
              simp only [Option.some_bind] at h
              cases Option.some.inj h
              exact ih h2 (coins_nonneg_resolve_one o h1 hg)

theorem coins_nonneg_resolve_claims (o : Oracle) {fuel : Nat}
    {g g' : Game} {res res' : ActionResolution}
    (h : Game.resolve_claims o fuel g res = some (g', res'))
    (hg : g.coins_nonneg) : g'.coins_nonneg := by
  unfold Game.resolve_claims at h
  cases hl : Game.resolve_claim_list o fuel g res.role_claims with
  | none => rw [hl] at h; cases h
  | some pr =>
      obtain ⟨g1, out⟩ := pr
      rw [hl] at h
      simp only [Option.bind_eq_bind', Option.some_bind] at h
      cases Option.some.inj h
      exact coins_nonneg_resolve_list o hl hg

theorem coins_nonneg_pay_loop {actor : Nat} :
    ∀ {ids : List Nat} {g g' : Game},
      Game.pay_one_coin_each actor ids g = some g' →
      g.coins_nonneg → g'.coins_nonneg := by
  intro ids
  induction ids with
  | nil =>
      intro g g' h hg
      cases Option.some.inj h
      exact hg
  | cons pid rest ih =>
      intro g g' h hg
      simp only [Game.pay_one_coin_each, Option.bind_eq_bind'] at h
      cases hp : g.getPlayer actor with
      | none => rw [hp] at h; cases h
      | some cp =>
          rw [hp] at h
          simp only [Option.some_bind] at h
          by_cases hc : cp.coins > 0
          · rw [if_pos hc] at h
            cases ha : g.addCoins actor (-1) with
            | none => rw [ha] at h; cases h
            | some g1 =>
                rw [ha] at h
                simp only [Option.some_bind] at h
                cases hb : g1.addCoins pid 1 with
                | none => rw [hb] at h; cases h
                | some g2 =>
                    rw [hb] at h
                    simp only [Option.some_bind] at h
                    have hg1 : g1.coins_nonneg :=
                      coins_nonneg_addCoins ha hg (fun p hp2 => by
                        have : p = cp := Option.some.inj ((hp2.symm.trans hp))
                        subst this
                        omega)
                    exact ih h (coins_nonneg_addCoins_pos hb hg1 (by omega))
          · rw [if_neg hc] at h
            simp only [Option.pure_def, Option.some_bind] at h
            exact ih h hg

theorem coins_nonneg_pope_loop {actor : Nat} {claims : List RoleClaim} :
    ∀ {ids : List Nat} {g g' : Game},
      Game.pope_loop actor claims ids g = some g' →
      g.coins_nonneg → g'.coins_nonneg := by
  intro ids
  induction ids with
  | nil =>
      intro g g' h hg
      cases Option.some.inj h
      exact hg
  | cons i rest ih =>
      intro g g' h hg
      simp only [Game.pope_loop, Option.bind_eq_bind'] at h
      by_cases hi : (i != actor) = true
      · rw [if_pos hi] at h
        by_cases hcr : (!claims.any (fun c =>
            c.player_id == i && c.was_successful && c.is_counter)) = true
        · rw [if_pos hcr] at h
          cases hp : g.getPlayer i with
          | none => rw [hp] at h; cases h
          | some player =>
              rw [hp] at h
              simp only [Option.some_bind] at h
              by_cases hc : player.coins > 0
              · rw [if_pos hc] at h
                cases ha : g.addCoins i (-1) with
                | none => rw [ha] at h; cases h
                | some g1 =>
                    rw [ha] at h
                    simp only [Option.some_bind] at h
                    cases hb : g1.addCoins actor 1 with
                    | none => rw [hb] at h; cases h
                    | some g2 =>
                        rw [hb] at h
                        simp only [Option.some_bind] at h
                        have hg1 : g1.coins_nonneg :=
                          coins_nonneg_addCoins ha hg (fun p hp2 => by
                            have : p = player := Option.some.inj ((hp2.symm.trans hp))
                            subst this
                            omega)
                        exact ih h (coins_nonneg_addCoins_pos hb hg1 (by omega))
              · rw [if_neg hc] at h
                simp only [Option.pure_def, Option.some_bind] at h
                exact ih h hg
        · rw [if_neg hcr] at h
          simp only [Option.pure_def, Option.some_bind] at h
          exact ih h hg
      · rw [if_neg hi] at h
        simp only [Option.pure_def, Option.some_bind] at h
        exact ih h hg

theorem coins_nonneg_spy_draw {o : Oracle} {actor : Nat}
    {g g' : Game} (h : Game.spy_draw_discard o actor g = some g')
    (hg : g.coins_nonneg) : g'.coins_nonneg := by
  unfold Game.spy_draw_discard at h
  cases hpop : popLast g.deck with
  | none => rw [hpop] at h; cases h
  | some pr =>
      obtain ⟨new_card, deck1⟩ := pr
      rw [hpop] at h
      simp only [Option.bind_eq_bind', Option.some_bind] at h
      cases hp : g.getPlayer actor with
      | none => rw [hp] at h; cases h
      | some player =>
          rw [hp] at h
          simp only [Option.some_bind] at h
          cases hpa : pyPopAt (player.cards ++ [new_card])
              (o.choose_card_to_discard actor (player.cards ++ [new_card])) with
          | none => rw [hpa] at h; cases h
          | some pr2 =>
              obtain ⟨discarded, cards2⟩ := pr2
              rw [hpa] at h
              simp only [Option.some_bind] at h
              cases Option.some.inj h
              intro p hp2
              rcases List.mem_or_eq_of_mem_set hp2 with hmem | rfl
              · rcases List.mem_or_eq_of_mem_set hmem with hmem2 | rfl
                · exact hg p hmem2
                · show (0 : Int) ≤ player.coins
                  exact coins_nonneg_get hg hp
              · show (0 : Int) ≤ player.coins
                exact coins_nonneg_get hg hp

theorem coins_nonneg_spy_loop {o : Oracle} {actor : Nat} :
    ∀ {fuel : Nat} {g g' : Game},
      Game.spy_redo_loop o actor fuel g = some g' →
      g.coins_nonneg → g'.coins_nonneg := by
  intro fuel
  induction fuel with
  | zero =>
      intro g g' h hg
      simp only [Game.spy_redo_loop] at h
      cases h
  | succ f ih =>
      intro g g' h hg
      simp only [Game.spy_redo_loop, Option.bind_eq_bind'] at h
      cases hp : g.getPlayer actor with
      | none => rw [hp] at h; cases h
      | some player =>
          rw [hp] at h
          simp only [Option.some_bind] at h
          by_cases hc : (decide (player.coins ≥ 1) && o.wants_to_redo_spy actor g) = true
          · rw [if_pos hc] at h
            have hc1 : 1 ≤ player.coins :=
              of_decide_eq_true ((Bool.and_eq_true _ _).mp hc).1
            cases ha : g.addCoins actor (-1) with
            | none => rw [ha] at h; cases h
            | some g1 =>
                rw [ha] at h
                simp only [Option.some_bind] at h
                cases hd : Game.spy_draw_discard o actor g1 with
                | none => rw [hd] at h; cases h
                | some g2 =>
                    rw [hd] at h
                    simp only [Option.some_bind] at h
                    have hg1 : g1.coins_nonneg :=
                      coins_nonneg_addCoins ha hg (fun p hp2 => by
                        have : p = player := Option.some.inj ((hp2.symm.trans hp))
                        subst this
                        omega)
                    exact ih h (coins_nonneg_spy_draw hd hg1)
          · rw [if_neg hc] at h
            cases Option.some.inj h
            exact hg

theorem coins_nonneg_execute (o : Oracle) {fuel : Nat}
    {g g' : Game} {res : ActionResolution}
    (h : Game.execute_action o fuel g res = some g')
    (hg : g.coins_nonneg) : g'.coins_nonneg := by
  unfold Game.execute_action at h
  cases hp0 : g.getPlayer res.actor_id with
  | none => rw [hp0] at h; cases h
  | some p0 =>
  rw [hp0] at h
  simp only [Option.bind_eq_bind', Option.some_bind] at h
  split at h
  -- income
  · exact coins_nonneg_addCoins_pos h hg (by omega)
  -- coup
  · split at h
    · cases Option.some.inj h; exact hg
    · split at h
      · cases Option.some.inj h; exact hg
      · rename_i hc7
        cases ha : g.addCoins res.actor_id (-7) with
        | none => rw [ha] at h; cases h
        | some g1 =>
            rw [ha] at h
            simp only [Option.some_bind] at h
            have hg1 : g1.coins_nonneg :=
              coins_nonneg_addCoins ha hg (fun p hp2 => by
                have : p = p0 := Option.some.inj ((hp2.symm.trans hp0))
                subst this
                omega)
            exact (elim_death_nonneg o fuel).1 _ _ _ h hg1
  -- foreign aid
  · split at h
    · exact coins_nonneg_addCoins_pos h hg (by omega)
    · cases Option.some.inj h; exact hg
  -- illusionist
  · cases ha : g.addCoins res.actor_id 4 with
    | none => rw [ha] at h; cases h
    | some g1 =>
        rw [ha] at h
        simp only [Option.some_bind] at h
        cases hb : Game.pay_one_coin_each res.actor_id
            ((res.role_claims.filter (fun c => c.is_counter && c.was_successful)).map
              RoleClaim.player_id) g1 with
        | none => rw [hb] at h; cases h
        | some g2 =>
            rw [hb] at h
            simp only [Option.some_bind] at h
            have hg2 : g2.coins_nonneg :=
              coins_nonneg_pay_loop hb (coins_nonneg_addCoins_pos ha hg (by omega))
            split at h
            · exact coins_nonneg_pay_loop h hg2
            · cases Option.some.inj h
              exact hg2
  -- blackmailer
  · split at h
    · cases Option.some.inj h; exact hg
    · split at h
      · cases Option.some.inj h; exact hg
      · split at h
        · cases Option.some.inj h; exact hg
        · rename_i t _ _ _
          cases htp : g.getPlayer t with
          | none => rw [htp] at h; cases h
          | some tp =>
              rw [htp] at h
              simp only [Option.some_bind] at h
              split at h
              · cases ha : g.addCoins res.actor_id (-3) with
                | none => rw [ha] at h; cases h
                | some g1 =>
                    rw [ha] at h
                    simp only [Option.some_bind] at h
                    cases hb : g1.addCoins t 3 with
                    | none => rw [hb] at h; cases h
                    | some g2 =>
                        rw [hb] at h
                        simp only [Option.some_bind] at h
                        have hg1 : g1.coins_nonneg :=
                          coins_nonneg_addCoins ha hg (fun p hp2 => by
                            have : p = p0 := Option.some.inj ((hp2.symm.trans hp0))
                            subst this
                            omega)
                        exact (elim_death_nonneg o fuel).1 _ _ _ h
                          (coins_nonneg_addCoins_pos hb hg1 (by omega))
              · split at h
                · cases ha : g.addCoins t (-3) with
                  | none => rw [ha] at h; cases h
                  | some g1 =>
                      rw [ha] at h
                      simp only [Option.some_bind] at h
                      have hg1 : g1.coins_nonneg :=
                        coins_nonneg_addCoins ha hg (fun p hp2 => by
                          have : p = tp := Option.some.inj ((hp2.symm.trans htp))
                          subst this
                          omega)
                      exact coins_nonneg_addCoins_pos h hg1 (by omega)
                · cases ha : g.addCoins res.actor_id (-3) with
                  | none => rw [ha] at h; cases h
                  | some g1 =>
                      rw [ha] at h
                      simp only [Option.some_bind] at h
                      cases hb : g1.addCoins t 3 with
                      | none => rw [hb] at h; cases h
                      | some g2 =>
                          rw [hb] at h
                          simp only [Option.some_bind] at h
                          have hg1 : g1.coins_nonneg :=
                            coins_nonneg_addCoins ha hg (fun p hp2 => by
                              have : p = p0 := Option.some.inj ((hp2.symm.trans hp0))
                              subst this
                              omega)
                          exact (elim_death_nonneg o fuel).1 _ _ _ h
                            (coins_nonneg_addCoins_pos hb hg1 (by omega))
  -- spy
  · cases hd : Game.spy_draw_discard o res.actor_id g with
    | none => rw [hd] at h; cases h
    | some g1 =>
        rw [hd] at h
        simp only [Option.some_bind] at h
        cases hp : g1.getPlayer res.actor_id with
        | none => rw [hp] at h; cases h
        | some player =>
            rw [hp] at h
            simp only [Option.some_bind] at h
            exact coins_nonneg_spy_loop h (coins_nonneg_spy_draw hd hg)
  -- pope
  · exact coins_nonneg_pope_loop h hg

theorem coins_nonneg_next_turn {fuel : Nat} {g g' : Game}
    (h : Game.next_turn fuel g = some g') (hg : g.coins_nonneg) :
    g'.coins_nonneg := by
  unfold Game.next_turn at h
  simp only [Option.bind_eq_bind'] at h
  cases hl : Game.next_turn_loop g fuel
      ((g.current_player_idx + 1) % g.players.length) with
  | none => rw [hl] at h; cases h
  | some idx =>
      rw [hl] at h
      cases Option.some.inj h
      exact hg

theorem coins_nonneg_perform_tail (o : Oracle) {fuel : Nat}
    {g g' : Game} {res : ActionResolution} {b : Bool}
    (h : Game.perform_tail o fuel g res = some (g', b))
    (hg : g.coins_nonneg) : g'.coins_nonneg := by
  unfold Game.perform_tail at h
  simp only [Option.bind_eq_bind'] at h
  cases hrc : Game.resolve_claims o fuel g (Game.handle_all_challenges o g res) with
  | none => rw [hrc] at h; cases h
  | some pr =>
      obtain ⟨g1, res2⟩ := pr
      rw [hrc] at h
      simp only [Option.some_bind] at h
      have hg1 : g1.coins_nonneg := coins_nonneg_resolve_claims o hrc hg
      split at h
      · cases hex : Game.execute_action o fuel g1 res2 with
        | none => rw [hex] at h; cases h
        | some g2 =>
            rw [hex] at h
            simp only [Option.some_bind] at h
            cases hnt : Game.next_turn fuel g2 with
            | none => rw [hnt] at h; cases h
            | some g3 =>
                rw [hnt] at h
                cases Option.some.inj h
                exact coins_nonneg_next_turn hnt (coins_nonneg_execute o hex hg1)
      · simp only [Option.pure_def, Option.some_bind] at h
        cases hnt : Game.next_turn fuel g1 with
        | none => rw [hnt] at h; cases h
        | some g3 =>
            rw [hnt] at h
            cases Option.some.inj h
            exact coins_nonneg_next_turn hnt hg1

theorem coins_nonneg_perform_rest (o : Oracle) {fuel : Nat}
    {g g' : Game} {res : ActionResolution} {b : Bool}
    (h : Game.perform_rest o fuel g res = some (g', b))
    (hg : g.coins_nonneg) : g'.coins_nonneg := by
  unfold Game.perform_rest at h
  simp only [Option.bind_eq_bind'] at h
  split at h
  · cases hhc : Game.handle_counters o g res with
    | none => rw [hhc] at h; cases h
    | some res1 =>
        rw [hhc] at h
        simp only [Option.some_bind] at h
        exact coins_nonneg_perform_tail o h hg
  · simp only [Option.pure_def, Option.some_bind] at h
    exact coins_nonneg_perform_tail o h hg

/-- Nonnegativity of every balance is preserved by a full
`perform_action` call. -/
theorem coins_nonneg_perform_action (o : Oracle) {fuel : Nat}
    {g g' : Game} {a : Action} {t : Option Nat} {r : Option Role} {b : Bool}
    (h : Game.perform_action o fuel g a t r = some (g', b))
    (hg : g.coins_nonneg) : g'.coins_nonneg := by
  unfold Game.perform_action at h
  cases hva : g.get_valid_actions with
  | none => rw [hva] at h; cases h
  | some va =>
      rw [hva] at h
      simp only [Option.bind_eq_bind', Option.some_bind] at h
      by_cases hmem : a ∉ va
      · rw [if_pos hmem] at h
        cases Option.some.inj h
        exact hg
      · rw [if_neg hmem] at h
        by_cases hrole : requires_role a = true
        · rw [if_pos hrole] at h
          split at h
          · cases Option.some.inj h
            exact hg
          · exact coins_nonneg_perform_rest o h (fun p hp => hg p hp)
        · rw [if_neg hrole] at h
          exact coins_nonneg_perform_rest o h (fun p hp => hg p hp)

/-- Dealing preserves each seat's balance. -/
theorem deal_loop_coins : ∀ {ps : List Player} {deck : List Card}
    {ps' : List Player} {deck' : List Card},
    deal_loop ps deck = some (ps', deck') →
    ∀ p' ∈ ps', ∃ p ∈ ps, p'.coins = p.coins := by
  intro ps
  induction ps with
  | nil =>
      intro deck ps' deck' h p' hp'
      cases Option.some.inj h
      cases hp'
  | cons p rest ih =>
      intro deck ps' deck' h p' hp'
      simp only [deal_loop, Option.bind_eq_bind'] at h
      cases hpop1 : popLast deck with
      | none => rw [hpop1] at h; cases h
      | some pr1 =>
          obtain ⟨c1, d1⟩ := pr1
          rw [hpop1] at h
          simp only [Option.some_bind] at h
          cases hpop2 : popLast d1 with
          | none => rw [hpop2] at h; cases h
          | some pr2 =>
              obtain ⟨c2, d2⟩ := pr2
              rw [hpop2] at h
              simp only [Option.some_bind] at h
              cases hloop : deal_loop rest d2 with
              | none => rw [hloop] at h; cases h
              | some pr3 =>
                  obtain ⟨rest', d3⟩ := pr3
                  rw [hloop] at h
                  simp only [Option.some_bind] at h
                  cases Option.some.inj h
                  cases hp' with
                  | head => exact ⟨p, List.mem_cons_self _ _, rfl⟩
                  | tail _ hmem =>
                      obtain ⟨q, hq, hcoins⟩ := ih hloop p' hmem
                      exact ⟨q, List.mem_cons_of_mem _ hq, hcoins⟩

/-- C9: in every state reachable from a fresh game (constructor, deal,
then any sequence of `perform_action` calls with arbitrary agents), every
seat's coin balance is ≥ 0: no operation ever takes a balance negative. -/
theorem coins_nonneg_invariant (o₀ : Oracle) (n : Nat) (g₀ g₁ g : Game)
    (hmk : mkGame o₀ n = some g₀) (hdeal : g₀.deal_cards = some g₁)
    (hr : Reachable g₁ g) : g.coins_nonneg := by
  unfold mkGame at hmk
  by_cases hcond : (3 ≤ n && n ≤ 6) = true
  case neg => rw [if_pos (by simp_all)] at hmk; cases hmk
  rw [if_neg (by simp_all)] at hmk
  cases Option.some.inj hmk
  have hg1 : g₁.coins_nonneg := by
    unfold Game.deal_cards at hdeal
    simp only [Option.bind_eq_bind'] at hdeal
    cases hloop : deal_loop (List.replicate n (Player.mk 2 []))
        (o₀.shuffle initial_deck) with
    | none => rw [hloop] at hdeal; cases hdeal
    | some pr =>
        obtain ⟨ps', deck'⟩ := pr
        rw [hloop] at hdeal
        simp only [Option.some_bind] at hdeal
        cases Option.some.inj hdeal
        intro p hp
        obtain ⟨q, hq, hcoins⟩ := deal_loop_coins hloop p hp
        rw [hcoins, List.eq_of_mem_replicate hq]
        decide
  clear hmk hdeal hcond
  induction hr with
  | refl => exact hg1
  | step hr' hsh hstep ih => exact coins_nonneg_perform_action _ hstep ih

/-- Witness for C9: after one Income step from the dealt 3-player game,
all balances are nonnegative. -/
theorem coins_nonneg_invariant_witness :
    ∃ g₂ b, Game.perform_action idOracle 20 dealtGame3 Action.income none none =
        some (g₂, b) ∧
      g₂.coins_nonneg := by
  obtain ⟨pr, hstep⟩ := Option.isSome_iff_exists.mp
    (show (Game.perform_action idOracle 20 dealtGame3 Action.income none none).isSome
      = true by decide)
  obtain ⟨g₂, b⟩ := pr
  refine ⟨g₂, b, hstep, ?_⟩
  exact coins_nonneg_invariant idOracle 3 preGame3 dealtGame3 g₂
    (by decide) (by decide)
    (Reachable.step (Reachable.refl dealtGame3) (fun l => List.Perm.refl l) hstep)

end Complots
